import Mathlib

/-!
Shallow embedding of the strand-collection model of
`src/strand_drawing_canvas.py` (class `StrandDrawingCanvas`).

Python objects are modelled through an arena: every strand object is a
natural-number id, and `arena : Nat → SData` gives the current attribute
record of each object.  Object identity (Python `==` on strand objects,
`in` on lists of strands) becomes id equality; attribute mutation becomes
a pointwise arena update.  The canvas's own attributes become the fields
of `Canvas`.  Methods that can raise a Python exception (TypeError from
comparing a composite `set_number` string with an int, AttributeError
from a missing reference, ValueError from `int(...)`) return `Option`,
with `none` marking the raised exception.  Painting, Qt events and the
layer-panel callbacks are outside the model; `layer_panel` is kept as a
Bool because `on_strand_created` branches on `if self.layer_panel:`.
-/

/-- A 2D point (`QPointF`); integer coordinates suffice for the model,
only equality of points is ever used by the embedded code. -/
structure Point where
  x : Int
  y : Int
deriving DecidableEq, Repr

/-- Discriminator for the `Strand` / `AttachedStrand` / `MaskedStrand`
class hierarchy of `strand.py` (isinstance checks in the canvas). -/
inductive SKind where
  | plain
  | attached
  | masked
deriving DecidableEq, Repr

/-- A `set_number` attribute: an int for plain/attached strands, a
composite string for masked strands (the canvas itself calls
`strand.set_number.startswith(...)` on masked strands and
`isinstance(strand.set_number, str)` in `on_strand_created`). -/
inductive SetNum where
  | int : Int → SetNum
  | str : String → SetNum
deriving DecidableEq, Repr

/-- Python `strand.set_number == n` where `n` is an int: int/str
comparison is `False`, never an error. -/
def SetNum.eqInt : SetNum → Int → Bool
  | .int m, n => m == n
  | .str _, _ => false

/-- Python `f"{set_number}"`: `str()` of the stored value. -/
def SetNum.render : SetNum → String
  | .int n => toString n
  | .str s => s

/-- Attribute record of one strand object.  `has_circles` is the
two-element list `[start, end]`; `is_being_deleted` is `none` when the
attribute is absent (`hasattr` is false), `some b` when present with
value `b`.  `first_selected` / `second_selected` are the
`first_selected_strand` / `second_selected_strand` references of a
`MaskedStrand` (`none` on the other variants, never read there). -/
structure SData where
  kind : SKind
  start : Point
  stop : Point
  width : Int
  color : Nat
  set_number : SetNum
  layer_name : String
  has_circles : Bool × Bool
  attached_strands : List Nat
  parent : Option Nat
  first_selected : Option Nat
  second_selected : Option Nat
  is_being_deleted : Option Bool
deriving DecidableEq, Repr

/-- The object arena: strand id to current attribute record. -/
abbrev Arena := Nat → SData

def defaultSData : SData :=
  { kind := .plain, start := ⟨0, 0⟩, stop := ⟨0, 0⟩, width := 0, color := 0,
    set_number := .int 0, layer_name := "", has_circles := (false, false),
    attached_strands := [], parent := none, first_selected := none,
    second_selected := none, is_being_deleted := none }

instance : Inhabited SData := ⟨defaultSData⟩

/-- Pointwise arena update: mutation of one object's attributes. -/
def aset (ar : Arena) (i : Nat) (d : SData) : Arena :=
  fun j => if j = i then d else ar j

/-- State of the `StrandDrawingCanvas` data model:
`strands`, `strand_colors`, `selected_strand`, `selected_strand_index`,
`last_selected_strand_index`, `is_first_strand`, `current_strand`,
`layer_panel` (presence flag).  `strand_colors` is an insertion-ordered
association list, matching a Python dict. -/
structure Canvas where
  arena : Arena
  strands : List Nat
  strand_colors : List (SetNum × Nat)
  selected_strand : Option Nat
  selected_strand_index : Option Int
  last_selected_strand_index : Option Int
  is_first_strand : Bool
  current_strand : Option Nat
  layer_panel : Bool

/-- Python dict lookup `d[k]` / `k in d`, as an option. -/
def dlookupS (d : List (SetNum × Nat)) (k : SetNum) : Option Nat :=
  (d.find? (fun p => p.1 == k)).map (·.2)

/-- Python dict assignment `d[k] = v`: update in place if the key is
present (keeping its position), else append. -/
def dinsertS : List (SetNum × Nat) → SetNum → Nat → List (SetNum × Nat)
  | [], k, v => [(k, v)]
  | (k', v') :: rest, k, v =>
    if k' == k then (k', v) :: rest else (k', v') :: dinsertS rest k v

/-- Python `int(s)` restricted to the canonical layer-name numerals the
program produces: an optional minus sign followed by decimal digits
(`none` models the raised ValueError). -/
def pyDigits? (l : List Char) : Option Nat :=
  if l = [] then none
  else l.foldl (fun acc c =>
    match acc with
    | none => none
    | some v => if c.isDigit then some (v * 10 + (c.toNat - 48)) else none) (some 0)

def pyIntOfString (s : String) : Option Int :=
  match s.toList with
  | '-' :: rest => (pyDigits? rest).map (fun v => -(v : Int))
  | l => (pyDigits? l).map (fun v => (v : Int))

/-- Python `s.split(sep)` on a character list (same semantics as
`str.split` with a one-character separator: `"".split('_') == [""]`,
`"_".split('_') == ["", ""]`). -/
def splitChar (sep : Char) : List Char → List (List Char)
  | [] => [[]]
  | c :: rest =>
    let r := splitChar sep rest
    if c = sep then [] :: r
    else
      match r with
      | h :: t => (c :: h) :: t
      | [] => [[c]]

/-- Python `name.split('_')`. -/
def pySplit (s : String) (sep : Char) : List String :=
  (splitChar sep s.data).map (fun l => String.mk l)

/-- Python `s.startswith(p)`. -/
def pyStartsWith (s p : String) : Bool :=
  p.data.isPrefixOf s.data

/-- `set_number, strand_number = map(int, strand.layer_name.split('_')[:2])`
(`remove_strand`, line 323); `none` models the ValueError from a name
with fewer than two parts or non-numeric parts. -/
def parse_layer (name : String) : Option (Int × Int) :=
  match (pySplit name '_').take 2 with
  | [a, b] =>
    match pyIntOfString a, pyIntOfString b with
    | some x, some y => some (x, y)
    | _, _ => none
  | _ => none

/-- `is_related_strand(self, strand, set_number)` (lines 441-453): matches
by the split layer name — first part equals `str(set_number)`, or a
composite (more than 2 parts) name containing `str(set_number)`. -/
def is_related_strand (ar : Arena) (q : Nat) (N : Int) : Bool :=
  let parts := pySplit (ar q).layer_name '_'
  parts.headD "" == toString N || (decide (parts.length > 2) && parts.contains (toString N))

/-- `find_parent_strand(self, attached_strand)` (lines 464-469): first
strand of the list whose `attached_strands` contains the given strand. -/
def find_parent_strand (ar : Arena) (strandsList : List Nat) (i : Nat) : Option Nat :=
  strandsList.find? (fun q => (ar q).attached_strands.contains i)

/-- `select_strand(self, index)` (lines 275-290).  The layer-panel call
and mode bookkeeping are external; `current_strand = None` (line 286) is
kept.  Out-of-range indices (including negative ones) take the `else`
branch. -/
def select_strand (c : Canvas) (idx : Int) : Canvas :=
  if 0 ≤ idx ∧ idx < (c.strands.length : Int) then
    { c with selected_strand := some (c.strands.getD idx.toNat 0),
             selected_strand_index := some idx,
             last_selected_strand_index := some idx,
             is_first_strand := false,
             current_strand := none }
  else
    { c with selected_strand := none, selected_strand_index := none }

/-- `clear_strands(self)` (lines 471-477).  The source resets `strands`,
`current_strand`, `is_first_strand` and `selected_strand_index` but does
not touch `selected_strand`; the model mirrors that exactly. -/
def clear_strands (c : Canvas) : Canvas :=
  { c with strands := [], current_strand := none,
           is_first_strand := true, selected_strand_index := none }

/-- `add_strand(self, strand)` (lines 270-273). -/
def add_strand (c : Canvas) (i : Nat) : Canvas :=
  { c with strands := c.strands ++ [i] }

/-- Modelled from the spec: `Strand.set_color` lives in `strand.py`,
which is not under `src/`; per §4.3 it sets the strand's color. -/
def set_color_d (d : SData) (col : Nat) : SData := { d with color := col }

/-- `update_attached_strands_color(self, parent_strand, color)` (lines
186-190): depth-first recursion over `attached_strands`.  The Python
recursion has no visited set, so it terminates only on acyclic
attachment graphs; `fuel` bounds the recursion depth and `none` models
non-termination / stack overflow (never reached under the acyclicity
hypotheses of the theorems below). -/
def update_attached_strands_color : Nat → Arena → List Nat → Nat → Option Arena
  | _, ar, [], _ => some ar
  | 0, _, _ :: _, _ => none
  | fuel + 1, ar, a :: rest, col =>
    let ar1 := aset ar a (set_color_d (ar a) col)
    (update_attached_strands_color fuel ar1 (ar1 a).attached_strands col).bind
      (fun ar2 => update_attached_strands_color (fuel + 1) ar2 rest col)
termination_by fuel _ l _ => (fuel, l.length)

/-- Loop body of `update_color_for_set` (lines 176-183): masked strands
match by `strand.set_number.startswith(f"{set_number}_")` — an
AttributeError (`none`) if a masked strand's `set_number` is an int —
other strands by `strand.set_number == set_number`. -/
def ucfs_go (N : Int) (col : Nat) (fuel : Nat) : Arena → List Nat → Option Arena
  | ar, [] => some ar
  | ar, q :: rest =>
    let d := ar q
    if d.kind = .masked then
      match d.set_number with
      | .str s =>
        if pyStartsWith s (toString N ++ "_") then
          let ar1 := aset ar q (set_color_d d col)
          (update_attached_strands_color fuel ar1 (ar1 q).attached_strands col).bind
            (fun ar2 => ucfs_go N col fuel ar2 rest)
        else ucfs_go N col fuel ar rest
      | .int _ => none
    else
      if SetNum.eqInt d.set_number N then
        let ar1 := aset ar q (set_color_d d col)
        (update_attached_strands_color fuel ar1 (ar1 q).attached_strands col).bind
          (fun ar2 => ucfs_go N col fuel ar2 rest)
      else ucfs_go N col fuel ar rest

/-- `update_color_for_set(self, set_number, color)` (lines 173-184):
stores the color under the int key, then recolors matching strands and
their attached descendants. -/
def update_color_for_set (c : Canvas) (N : Int) (col : Nat) (fuel : Nat) : Option Canvas :=
  let colors1 := dinsertS c.strand_colors (.int N) col
  (ucfs_go N col fuel c.arena c.strands).map
    (fun ar' => { c with strand_colors := colors1, arena := ar' })

/-- `max(self.strand_colors.keys(), default=0)` (line 205): `some` of the
int keys when all keys are ints, `none` when a composite string key
makes Python's `max`/`+ 1` raise a TypeError. -/
def intKeys? : List (SetNum × Nat) → Option (List Int)
  | [] => some []
  | (.int n, _) :: rest => (intKeys? rest).map (fun l => n :: l)
  | (.str _, _) :: _ => none

def maxDefaultZero (ks : List Int) : Int :=
  match ks with
  | [] => 0
  | x :: xs => xs.foldl max x

/-- Set-number assignment of `on_strand_created` (lines 200-205): an
AttachedStrand inherits its parent's `set_number` (`none` models the
AttributeError when the parent reference is missing); else a selected
strand's `set_number`; else `max(self.strand_colors.keys(), default=0) + 1`
(`none` models the TypeError from a composite string key). -/
def assigned_set_number (c : Canvas) (i : Nat) : Option SetNum :=
  if (c.arena i).kind = .attached then
    match (c.arena i).parent with
    | some pid => some (c.arena pid).set_number
    | none => none
  else
    match c.selected_strand with
    | some s => some (c.arena s).set_number
    | none => (intKeys? c.strand_colors).map (fun ks => .int (maxDefaultZero ks + 1))

/-- Layer-panel block of `on_strand_created` (lines 215-228): recount
the set and recompute this strand's `layer_name`; the panel calls
themselves are external.  The argument is `int(strand.set_number)`
(line 216), `none` modelling its ValueError. -/
def osc_panel (base : Canvas) (i : Nat) : Option Int → Option Canvas
  | none => none
  | some n =>
    let count := base.strands.countP (fun q => SetNum.eqInt (base.arena q).set_number n)
    let named := { (base.arena i) with layer_name := toString n ++ "_" ++ toString count }
    some { base with arena := aset base.arena i named }

/-- Selection step of `on_strand_created` (lines 230-231): a strand that
is not an AttachedStrand becomes the selection. -/
def osc_finish (dk : SKind) : Option Canvas → Option Canvas
  | none => none
  | some c2 =>
    if dk ≠ SKind.attached then some (select_strand c2 ((c2.strands.length : Int) - 1))
    else some c2

/-- Body of `on_strand_created` after the set number was computed
(lines 207-239): store the set number, default the set's color to
purple (0x800080 = 8388736), color the strand, append it, run the
panel block, then select. -/
def on_strand_created_assigned (c : Canvas) (i : Nat) : Option SetNum → Option Canvas
  | none => none
  | some sn =>
    let ar1 := aset c.arena i { (c.arena i) with set_number := sn }
    let colors1 :=
      if (dlookupS c.strand_colors sn).isNone
      then dinsertS c.strand_colors sn 8388736
      else c.strand_colors
    let col := (dlookupS colors1 sn).getD 0
    let ar2 := aset ar1 i { (ar1 i) with color := col }
    let base : Canvas := { c with arena := ar2, strand_colors := colors1,
                                  strands := c.strands ++ [i] }
    osc_finish (c.arena i).kind
      (if c.layer_panel then
        osc_panel base i (match sn with | .int n => some n | .str s => pyIntOfString s)
      else some base)

/-- `on_strand_created(self, strand)` (lines 192-239).  The early return
on a true `is_being_deleted` (lines 196-198) leaves the whole state
unchanged.  Logging and the layer-panel callbacks (`add_layer_button`,
`update_layer_names`, `on_color_changed`, `update_attachable_states`)
are external; the `layer_name` recomputation of lines 216-218 sits
inside the `if self.layer_panel:` block exactly as in the source. -/
def on_strand_created (c : Canvas) (i : Nat) : Option Canvas :=
  if (c.arena i).is_being_deleted = some true then some c
  else on_strand_created_assigned c i (assigned_set_number c i)

/-- Collection loop of `remove_strand` for a main strand (lines 330-339):
every related strand goes to `strands_to_remove`; otherwise a masked
strand whose first or second referenced strand is related goes to
`masks_to_remove` (short-circuit `or` as in Python: the second reference
is only read when the first one is not related).  `none` models the
AttributeError raised when a masked strand's reference is `None`. -/
def collect_main (ar : Arena) (N : Int) : List Nat → Option (List Nat × List Nat)
  | [] => some ([], [])
  | s :: rest =>
    if is_related_strand ar s N then
      (collect_main ar N rest).map (fun p => (s :: p.1, p.2))
    else if (ar s).kind = .masked then
      match (ar s).first_selected with
      | none => none
      | some a =>
        if is_related_strand ar a N then
          (collect_main ar N rest).map (fun p => (p.1, s :: p.2))
        else
          match (ar s).second_selected with
          | none => none
          | some b =>
            if is_related_strand ar b N then
              (collect_main ar N rest).map (fun p => (p.1, s :: p.2))
            else collect_main ar N rest
    else collect_main ar N rest

/-- Collection loop of `remove_strand` for a non-main strand (lines
340-347): only the strand itself, plus masked strands referencing it
directly (comparison with a `None` reference is just inequality). -/
def collect_nonmain (ar : Arena) (i : Nat) : List Nat → List Nat × List Nat
  | [] => ([], [])
  | s :: rest =>
    let p := collect_nonmain ar i rest
    if s = i then (s :: p.1, p.2)
    else if (ar s).kind = .masked ∧
            ((ar s).first_selected = some i ∨ (ar s).second_selected = some i) then
      (p.1, s :: p.2)
    else p

/-- One iteration of the removal loop (lines 350-359): drop the strand
from the list if still present and clear the selection if it was the
selected strand. -/
def removal_step (st : List Nat × Option Nat × Option Int) (s : Nat) :
    List Nat × Option Nat × Option Int :=
  if s ∈ st.1 then
    (st.1.erase s,
     if st.2.1 = some s then none else st.2.1,
     if st.2.1 = some s then none else st.2.2)
  else st

/-- Parent unlinking for a removed AttachedStrand (lines 361-374):
`find_parent_strand` runs over the already-shrunk strand list; the
matching `has_circles` flag is cleared by comparing the removed strand's
start with the parent's start, `elif` with the parent's end. -/
def unlink_at (ar : Arena) (i : Nat) : Option Nat → Arena
  | none => ar
  | some p =>
    let pd := ar p
    let pd1 := { pd with attached_strands := pd.attached_strands.erase i }
    if (ar i).start = pd.start then
      aset ar p { pd1 with has_circles := (false, pd1.has_circles.2) }
    else if (ar i).start = pd.stop then
      aset ar p { pd1 with has_circles := (pd1.has_circles.1, false) }
    else aset ar p pd1

def unlink_parent (ar : Arena) (strandsAfter : List Nat) (i : Nat) : Arena :=
  if (ar i).kind = .attached then
    unlink_at ar i (find_parent_strand ar strandsAfter i)
  else ar

/-- The conditional rename of lines 396-398 (also lines 431-433): assign
`new_name` only when it differs from the current `layer_name` (the
outcome is the same either way; the source guards the assignment to
restrict its logging). -/
def rename_step (ar : Arena) (q : Nat) (nm : String) : Arena :=
  if (ar q).layer_name = nm then ar
  else aset ar q { (ar q) with layer_name := nm }

/-- Loop of `update_layer_names_for_set` (lines 390-401): renumber the
layer names of the given set densely, in strand-list order, leaving all
other strands alone. -/
def ulnfs_go (N : Int) : Arena → Nat → List Nat → Arena
  | ar, _, [] => ar
  | ar, count, q :: rest =>
    if SetNum.eqInt (ar q).set_number N then
      ulnfs_go N (rename_step ar q (toString N ++ "_" ++ toString count)) (count + 1) rest
    else ulnfs_go N ar count rest

def update_layer_names_for_set (c : Canvas) (N : Int) : Canvas :=
  { c with arena := ulnfs_go N c.arena 1 c.strands }

/-- Loop of `update_layer_names` (lines 421-440): recompute every layer
name as `f"{set_number}_{running_count}"`, counting per `set_number`
(dict keyed by the raw set-number value, so int and string keys count
separately, as in Python). -/
def uln_go : Arena → List (SetNum × Nat) → List Nat → Arena
  | ar, _, [] => ar
  | ar, counts, q :: rest =>
    let sn := (ar q).set_number
    let cnt := (dlookupS counts sn).getD 0 + 1
    let counts1 := dinsertS counts sn cnt
    uln_go (rename_step ar q (sn.render ++ "_" ++ toString cnt)) counts1 rest

def update_layer_names (c : Canvas) : Canvas :=
  { c with arena := uln_go c.arena [] c.strands }

/-- Decrement loop of `update_set_numbers` (lines 404-407):
`strand.set_number > deleted_set_number` raises a TypeError (`none`)
when the stored set number is a composite string. -/
def usn_strands_go : Arena → Int → List Nat → Option Arena
  | ar, _, [] => some ar
  | ar, d, q :: rest =>
    match (ar q).set_number with
    | .int n =>
      usn_strands_go
        (if d < n then aset ar q { (ar q) with set_number := .int (n - 1) } else ar) d rest
    | .str _ => none

/-- Dict comprehension of `update_set_numbers` (line 410):
`{k - 1 if k > deleted else k: v for k, v in strand_colors.items()}`.
The key `deleted` itself is kept (`k > deleted` is false for it), so the
entry is only dropped when a later entry `deleted + 1` overwrites it;
a string key raises a TypeError (`none`). -/
def rekey_colors (d : Int) : List (SetNum × Nat) → List (SetNum × Nat) →
    Option (List (SetNum × Nat))
  | acc, [] => some acc
  | acc, (k, v) :: rest =>
    match k with
    | .int n => rekey_colors d (dinsertS acc (.int (if d < n then n - 1 else n)) v) rest
    | .str _ => none

/-- `update_set_numbers(self, deleted_set_number)` (lines 402-420):
decrement higher set numbers, re-key the color dict, then recompute all
layer names. -/
def update_set_numbers (c : Canvas) (d : Int) : Option Canvas :=
  match usn_strands_go c.arena d c.strands with
  | none => none
  | some ar1 =>
    match rekey_colors d [] c.strand_colors with
    | none => none
    | some colors1 =>
      some (update_layer_names { c with arena := ar1, strand_colors := colors1 })

/-- Removal phase, unlinking and renumbering of `remove_strand`
(lines 349-388), applied to the collected `(strands_to_remove,
masks_to_remove)` pair (`none` propagates a collection-phase
exception). -/
def remove_collected (c : Canvas) (i : Nat) (N : Int) (is_main : Bool) :
    Option (List Nat × List Nat) → Option Canvas
  | none => none
  | some (toRem, masksRem) =>
    let st := (toRem ++ masksRem).foldl removal_step
      (c.strands, c.selected_strand, c.selected_strand_index)
    let ar1 := unlink_parent c.arena st.1 i
    let c1 : Canvas := { c with strands := st.1, selected_strand := st.2.1,
                                selected_strand_index := st.2.2, arena := ar1 }
    if is_main then update_set_numbers c1 N
    else some (update_layer_names_for_set c1 N)

/-- Branch of `remove_strand` after the layer name parsed (line 323
onward): a main strand (`strand_number == 1`) triggers the whole-set
cascade, any other strand the local removal. -/
def remove_strand_parsed (c : Canvas) (i : Nat) : Option (Int × Int) → Option Canvas
  | none => none
  | some (N, num) =>
    remove_collected c i N (num == 1)
      (if num == 1 then collect_main c.arena N c.strands
       else some (collect_nonmain c.arena i c.strands))

/-- `remove_strand(self, strand)` (lines 317-388): no-op when the strand
is absent; otherwise parse the layer name, collect the cascade, remove,
unlink an AttachedStrand from its parent, and renumber (per-set names
for a non-main strand, global set numbers for a main strand). -/
def remove_strand (c : Canvas) (i : Nat) : Option Canvas :=
  if i ∈ c.strands then
    remove_strand_parsed c i (parse_layer (c.arena i).layer_name)
  else some c

/-- Modelled from the spec: the serialized record produced by
`Strand.to_dict` / consumed by `Strand.from_dict` (`strand.py` is not
under `src/`).  Per §6 it carries every §3 attribute plus a
discriminator tag, with strand references (attachment children, parent,
mask constituents) encoded as indices into the record sequence. -/
structure StrandRecord where
  kind : SKind
  start : Point
  stop : Point
  width : Int
  color : Nat
  set_number : SetNum
  layer_name : String
  has_circles : Bool × Bool
  attached : List Nat
  parent : Option Nat
  first : Option Nat
  second : Option Nat
deriving DecidableEq, Repr

/-- Modelled from the spec: `Strand.to_dict` for the strand at id `q`,
references encoded as indices into `c.strands`. -/
def to_dict (c : Canvas) (q : Nat) : StrandRecord :=
  let d := c.arena q
  { kind := d.kind, start := d.start, stop := d.stop, width := d.width,
    color := d.color, set_number := d.set_number, layer_name := d.layer_name,
    has_circles := d.has_circles,
    attached := d.attached_strands.map (fun a => c.strands.indexOf a),
    parent := d.parent.map (fun a => c.strands.indexOf a),
    first := d.first_selected.map (fun a => c.strands.indexOf a),
    second := d.second_selected.map (fun a => c.strands.indexOf a) }

/-- `export_to_data(self)` (lines 567-569). -/
def export_to_data (c : Canvas) : List StrandRecord :=
  c.strands.map (to_dict c)

/-- Modelled from the spec: `Strand.from_dict`, rebuilding the strand
that will live at id `j`; since `import_from_data` creates the objects
in record order with ids `0, 1, 2, ...`, an encoded index resolves to
the id with the same number.  The transient `is_being_deleted` attribute
is not serialized (it is not a §3 attribute), so the rebuilt object does
not have it. -/
def from_dict (r : StrandRecord) : SData :=
  { kind := r.kind, start := r.start, stop := r.stop, width := r.width,
    color := r.color, set_number := r.set_number, layer_name := r.layer_name,
    has_circles := r.has_circles, attached_strands := r.attached,
    parent := r.parent, first_selected := r.first, second_selected := r.second,
    is_being_deleted := none }

/-- Loop of `import_from_data` (lines 562-564): reconstruct one strand
per record, in order, each a fresh object (fresh ids `j, j+1, ...`),
and `add_strand` it. -/
def import_go : Canvas → Nat → List StrandRecord → Canvas
  | acc, _, [] => acc
  | acc, j, r :: rest =>
    import_go (add_strand { acc with arena := aset acc.arena j (from_dict r) } j) (j + 1) rest

/-- `import_from_data(self, data)` (lines 559-565): clear, then rebuild
in record order. -/
def import_from_data (c : Canvas) (data : List StrandRecord) : Canvas :=
  import_go (clear_strands c) 0 data

/-- Helper to build a finite arena for concrete states: ids outside the
list hold `defaultSData` (in particular an empty `attached_strands`). -/
def mkArena (l : List (Nat × SData)) : Arena :=
  fun j => (((l.find? (fun p => p.1 == j)).map (·.2)).getD defaultSData)

/-- Helper for concrete canvas states with the layer panel attached (the
application always installs one via `set_layer_panel`). -/
def mkCanvas (ar : Arena) (ss : List Nat) (cols : List (SetNum × Nat)) : Canvas :=
  { arena := ar, strands := ss, strand_colors := cols, selected_strand := none,
    selected_strand_index := none, last_selected_strand_index := none,
    is_first_strand := true, current_strand := none, layer_panel := true }

/-- Fixture for C1: two one-strand sets, colors stored for both.  This
state is reachable by creating the two strands on a fresh canvas. -/
def canvasC1 : Canvas :=
  mkCanvas
    (mkArena
      [(0, { defaultSData with set_number := .int 1, layer_name := "1_1", color := 10 }),
       (1, { defaultSData with set_number := .int 2, layer_name := "2_1", color := 20 })])
    [0, 1] [(.int 1, 10), (.int 2, 20)]

/-- Fixture for C2: a strand object carrying `is_being_deleted = True`,
handed to `on_strand_created` on a canvas with a layer panel. -/
def canvasC2 : Canvas :=
  mkCanvas (mkArena [(3, { defaultSData with layer_name := "x", is_being_deleted := some true })])
    [] []

/-- Fixture for C4: one strand, currently selected. -/
def canvasC4 : Canvas :=
  { mkCanvas (mkArena [(0, { defaultSData with set_number := .int 1, layer_name := "1_1" })])
      [0] [(.int 1, 10)] with
    selected_strand := some 0, selected_strand_index := some 0 }

/-- Fixture for C6: a small canvas not containing strand id 5. -/
def canvasC6 : Canvas :=
  mkCanvas (mkArena [(0, { defaultSData with set_number := .int 1, layer_name := "1_1" })])
    [0] [(.int 1, 10)]

/-- Fixture for the C7 counterexample: no strands at all, but the color
dict holds a key (reachable: `update_color_for_set(5, c)` inserts the
key unconditionally; a stale key also survives any deletion of the
highest-numbered set, see C1). -/
def canvasC7cex : Canvas :=
  mkCanvas (mkArena [(0, defaultSData)]) [] [(.int 5, 7)]

/-- Fixture for the C9 counterexample: an AttachedStrand (id 0) that is
the main strand `"1_1"` of its set — reachable, since z-order moves
(`move_strand_to_back`) followed by a non-main deletion renumber an
attached strand to suffix 1 — with parent id 1 of the same set holding
it in `attached_strands` exactly once, with a matching start point. -/
def canvasC9cex : Canvas :=
  mkCanvas
    (mkArena
      [(0, { defaultSData with
             kind := .attached, set_number := .int 1, layer_name := "1_1",
             start := ⟨0, 0⟩, parent := some 1 }),
       (1, { defaultSData with
             set_number := .int 1, layer_name := "1_2", start := ⟨0, 0⟩,
             stop := ⟨9, 9⟩, attached_strands := [0], has_circles := (true, true) })])
    [0, 1] [(.int 1, 10)]

/-- Fixture for C5's witness: a 4-member set 3 whose member `"3_2"`
(id 2) is an AttachedStrand of `"3_1"` (id 1), a masked strand (id 9)
referencing id 2, and a bystander set 1 (id 0). -/
def canvasC5w : Canvas :=
  mkCanvas
    (mkArena
      [(0, { defaultSData with
             set_number := .int 1, layer_name := "1_1", color := 1 }),
       (1, { defaultSData with
             set_number := .int 3, layer_name := "3_1", color := 3,
             stop := ⟨5, 5⟩, attached_strands := [2], has_circles := (false, true) }),
       (2, { defaultSData with
             kind := .attached, set_number := .int 3, layer_name := "3_2", color := 3,
             start := ⟨5, 5⟩, parent := some 1 }),
       (3, { defaultSData with
             set_number := .int 3, layer_name := "3_3", color := 3 }),
       (4, { defaultSData with
             set_number := .int 3, layer_name := "3_4", color := 3 }),
       (9, { defaultSData with
             kind := .masked, set_number := .str "3_2", layer_name := "3_2_1_1",
             first_selected := some 2, second_selected := some 0 })])
    [0, 1, 2, 3, 4, 9] [(.int 1, 1), (.int 3, 3)]

/-- Fixture for the C9 witness: parent id 0 (`"1_1"`) holding the
AttachedStrand id 1 (`"1_2"`, start equal to the parent's start) in
`attached_strands` exactly once. -/
def canvasC9w : Canvas :=
  mkCanvas
    (mkArena
      [(0, { defaultSData with
             set_number := .int 1, layer_name := "1_1", start := ⟨0, 0⟩,
             stop := ⟨9, 9⟩, attached_strands := [1], has_circles := (true, true) }),
       (1, { defaultSData with
             kind := .attached, set_number := .int 1, layer_name := "1_2",
             start := ⟨0, 0⟩, parent := some 0 })])
    [0, 1] [(.int 1, 10)]

/-- Fixture for C7's witness: a canvas with one selected strand of
set 1, to which a fresh plain strand (id 5) is handed. -/
def canvasC7w : Canvas :=
  { mkCanvas
      (mkArena [(0, { defaultSData with set_number := .int 1, layer_name := "1_1" }),
                (5, defaultSData)])
      [0] [(.int 1, 10)] with
    selected_strand := some 0, selected_strand_index := some 0 }

/-- Fixture for C3's witness: one plain strand with an attached child,
a second set, and a masked strand referencing the child and the second
set's strand; a strand is selected. -/
def canvasC3w : Canvas :=
  { mkCanvas
      (mkArena
        [(0, { defaultSData with
               set_number := .int 1, layer_name := "1_1", color := 4,
               stop := ⟨3, 3⟩, attached_strands := [1], has_circles := (false, true) }),
         (1, { defaultSData with
               kind := .attached, set_number := .int 1, layer_name := "1_2",
               start := ⟨3, 3⟩, parent := some 0, color := 4 }),
         (2, { defaultSData with
               set_number := .int 2, layer_name := "2_1", color := 9 }),
         (3, { defaultSData with
               kind := .masked, set_number := .str "1_2", layer_name := "1_2_2_1",
               first_selected := some 1, second_selected := some 2 })])
      [0, 1, 2, 3] [(.int 1, 4), (.int 2, 9)] with
    selected_strand := some 2, selected_strand_index := some 2 }

/-- Concrete arena for C8's witness, written as a total function so
that its attachment lists are analyzable for arbitrary ids: a chain
0 → 1 → 2 in set 1, a bystander set 2 (id 3), and a masked strand
(id 4) whose composite set number starts with `"1_"`. -/
def arenaC8 : Arena := fun j =>
  if j = 0 then { defaultSData with
    set_number := .int 1, layer_name := "1_1", attached_strands := [1] }
  else if j = 1 then { defaultSData with
    kind := .attached, set_number := .int 1, layer_name := "1_2",
    attached_strands := [2], parent := some 0 }
  else if j = 2 then { defaultSData with
    kind := .attached, set_number := .int 1, layer_name := "1_3", parent := some 1 }
  else if j = 3 then { defaultSData with
    set_number := .int 2, layer_name := "2_1" }
  else if j = 4 then { defaultSData with
    kind := .masked, set_number := .str "1_1", layer_name := "1_1_2_1",
    first_selected := some 0, second_selected := some 3 }
  else defaultSData

/-- Fixture for C8's witness. -/
def canvasC8w : Canvas :=
  mkCanvas arenaC8 [0, 1, 2, 3, 4] [(.int 1, 1), (.int 2, 2)]

/-- Fixture for C10's witness. -/
def canvasC10 : Canvas :=
  mkCanvas (mkArena [(0, { defaultSData with set_number := .int 1, layer_name := "1_1" })])
    [0] [(.int 1, 10)]

/-- The removal predicate of the non-main branch of `remove_strand`
(lines 340-347): the strand itself, or a masked strand referencing it
directly. -/
def removed_by_nonmain (ar : Arena) (i s : Nat) : Bool :=
  decide (s = i ∨ ((ar s).kind = SKind.masked ∧
    ((ar s).first_selected = some i ∨ (ar s).second_selected = some i)))

/-- One attachment edge of the recursive color propagation: `b` is a
direct attached child of `a`. -/
def attached_edge (ar : Arena) (a b : Nat) : Prop :=
  b ∈ (ar a).attached_strands

/-- The match test of the loop in `update_color_for_set` (lines
176-183): a masked strand matches when its composite set-number string
starts with `"{N}_"`, any other strand when its set number equals N. -/
def color_matches (ar : Arena) (N : Int) (q : Nat) : Prop :=
  ((ar q).kind = SKind.masked ∧ ∃ s, (ar q).set_number = SetNum.str s ∧
    pyStartsWith s (toString N ++ "_") = true)
  ∨ ((ar q).kind ≠ SKind.masked ∧ (ar q).set_number = SetNum.int N)

/-- A strand is recolored by `update_color_for_set(N, color)` exactly
when it is a matching member of the strand list or transitively
attached beneath one — a traversal-order-free description. -/
def color_reaches (c : Canvas) (N : Int) (j : Nat) : Prop :=
  ∃ src ∈ c.strands, color_matches c.arena N src ∧
    Relation.ReflTransGen (attached_edge c.arena) src j

/-- `ar'` differs from `ar` at most by recoloring some strands. -/
def recolored_from (ar ar' : Arena) (col : Nat) : Prop :=
  ∀ j, ar' j = ar j ∨ ar' j = set_color_d (ar j) col

/-- C1: evidence theorem.  On the reachable two-set state `canvasC1`
(sets 1 and 2, colors `{1: 10, 2: 20}`), removing the main strand
`"2_1"` of set 2 removes the whole set, but the color mapping still
contains the entry for key 2 afterwards — the claimed re-keying
("the entry with key == N is dropped") does not happen when N is the
highest key, because the dict comprehension on line 410 keeps the key
`k == deleted_set_number` and nothing overwrites it. -/
theorem claim_C1_color_entry_not_dropped :
    (remove_strand canvasC1 1).map (fun c => (c.strands, c.strand_colors)) =
      some ([0], [(SetNum.int 1, 10), (SetNum.int 2, 20)]) := by
  rfl

/-- C2: evidence theorem.  A strand whose `is_being_deleted` attribute
is present and true makes `on_strand_created` return at line 198 before
any bookkeeping: the state is completely unchanged — no set number is
assigned, no color set, nothing appended, no layer name recomputed —
contradicting the claim that only the panel button creation is
suppressed. -/
theorem claim_C2_flagged_creation_is_noop :
    (canvasC2.arena 3).is_being_deleted = some true ∧
      on_strand_created canvasC2 3 = some canvasC2 :=
  ⟨rfl, rfl⟩

/-- C4: evidence theorem.  `clear_strands` empties the strand list and
resets `selected_strand_index`, but leaves `selected_strand` pointing at
the removed strand, so afterwards the selected strand is not `none` yet
is not a member of the (empty) strand sequence — the invariant claimed
for every operation fails for the clearing operation. -/
theorem claim_C4_clear_strands_keeps_selection :
    canvasC4.selected_strand = some 0 ∧
      (clear_strands canvasC4).strands = [] ∧
      (clear_strands canvasC4).selected_strand = some 0 :=
  ⟨rfl, rfl, rfl⟩

/-- C6: removing a strand that is not in the collection is a complete
no-op: `remove_strand` returns at line 321 before reading anything else,
so the whole state (strand list, colors, selection, every strand's
attributes) is unchanged and no exception is raised. -/
theorem claim_C6_remove_absent_strand_noop (c : Canvas) (i : Nat)
    (h : i ∉ c.strands) : remove_strand c i = some c := by
  simp [remove_strand, h]

/-- C6 witness: concrete instance at strand id 5 on `canvasC6`. -/
theorem claim_C6_remove_absent_strand_noop_witness :
    5 ∉ canvasC6.strands ∧ remove_strand canvasC6 5 = some canvasC6 :=
  ⟨by decide, claim_C6_remove_absent_strand_noop canvasC6 5 (by decide)⟩

/-- C10: `select_strand` with any index outside `0 ≤ idx < len(strands)`
takes the `else` branch of line 288: it sets `selected_strand` and
`selected_strand_index` to `none` and changes nothing else — the strand
list, every strand's attributes, and the remaining canvas fields are
untouched, and no exception is raised. -/
theorem claim_C10_select_out_of_range_clears (c : Canvas) (idx : Int)
    (h : ¬(0 ≤ idx ∧ idx < (c.strands.length : Int))) :
    select_strand c idx =
      { c with selected_strand := none, selected_strand_index := none } := by
  simp only [select_strand, if_neg h]

/-- C10 witness: concrete instance at index `-1` on `canvasC10`. -/
theorem claim_C10_select_out_of_range_clears_witness :
    ¬((0 : Int) ≤ -1 ∧ (-1 : Int) < (canvasC10.strands.length : Int)) ∧
      select_strand canvasC10 (-1) =
        { canvasC10 with selected_strand := none, selected_strand_index := none } :=
  ⟨by decide, claim_C10_select_out_of_range_clears canvasC10 (-1) (by decide)⟩

/-- C7 counterexample: on a canvas with no strands at all (so no set
exists) but a stored color under key 5, creating a plain strand with no
selection assigns set number `max(strand_colors.keys()) + 1 = 6`, not
the `1` the claim requires for a collection with no existing sets
(line 205 takes the maximum over the color-dict keys, not over the set
numbers of existing strands). -/
theorem claim_C7_counterexample :
    canvasC7cex.strands = [] ∧
      (on_strand_created canvasC7cex 0).map (fun c => (c.arena 0).set_number) =
        some (SetNum.int 6) :=
  ⟨rfl, rfl⟩

/-- C9 counterexample: strand 0 is an AttachedStrand whose parent,
strand 1, holds it in `attached_strands` exactly once and shares its
start point; yet after `remove_strand` on strand 0 — whose layer name
`"1_1"` makes it a main strand, so the cascade also removes the parent
before `find_parent_strand` runs — strand 0 still appears in the
parent's `attached_strands` and the parent's start-circle flag is still
set, contradicting the claim. -/
theorem claim_C9_counterexample :
    (canvasC9cex.arena 0).kind = SKind.attached ∧
      (canvasC9cex.arena 1).attached_strands = [0] ∧
      (canvasC9cex.arena 0).start = (canvasC9cex.arena 1).start ∧
      (remove_strand canvasC9cex 0).map
        (fun c => ((c.arena 1).attached_strands, (c.arena 1).has_circles)) =
        some ([0], (true, true)) :=
  ⟨rfl, rfl, rfl, rfl⟩

theorem aset_at (ar : Arena) (i : Nat) (d : SData) : aset ar i d i = d := by
  simp [aset]

theorem aset_at_ne (ar : Arena) (i j : Nat) (d : SData) (h : j ≠ i) :
    aset ar i d j = ar j := by
  simp [aset, h]

theorem SetNum.eqInt_true_iff (d : SetNum) (n : Int) :
    SetNum.eqInt d n = true ↔ d = .int n := by
  cases d <;> simp [SetNum.eqInt]

/-- The collection loop for a non-main strand produces exactly the two
filters: occurrences of the strand itself, and masked strands
referencing it. -/
theorem collect_nonmain_eq (ar : Arena) (i : Nat) (l : List Nat) :
    collect_nonmain ar i l =
      (l.filter (fun s => decide (s = i)),
       l.filter (fun s => decide (¬s = i ∧ ((ar s).kind = SKind.masked ∧
         ((ar s).first_selected = some i ∨ (ar s).second_selected = some i))))) := by
  induction l with
  | nil => rfl
  | cons hd tl ih =>
    by_cases h1 : hd = i
    · simp [collect_nonmain, ih, h1, List.filter_cons]
    · by_cases h2 : (ar hd).kind = SKind.masked ∧
        ((ar hd).first_selected = some i ∨ (ar hd).second_selected = some i)
      · simp [collect_nonmain, ih, h1, h2, List.filter_cons]
      · simp [collect_nonmain, ih, h1, h2, List.filter_cons]

/-- The removal loop keeps exactly the strands not listed for removal
(on a duplicate-free strand list). -/
theorem foldl_removal_strands (rs : List Nat) :
    ∀ (l : List Nat) (sel : Option Nat) (si : Option Int), l.Nodup →
      (rs.foldl removal_step (l, sel, si)).1 = l.filter (fun s => decide (s ∉ rs)) := by
  induction rs with
  | nil =>
    intro l sel si _
    simp
  | cons r rs ih =>
    intro l sel si h
    by_cases hr : r ∈ l
    · have hstep : removal_step (l, sel, si) r =
        (l.erase r,
         if sel = some r then none else sel,
         if sel = some r then none else si) := by
        simp [removal_step, hr]
      rw [List.foldl_cons, hstep, ih _ _ _ (h.erase r)]
      rw [h.erase_eq_filter r, List.filter_filter]
      apply List.filter_congr
      intro x _
      by_cases hxr : x = r
      · simp [hxr]
      · simp [hxr]
    · have hstep : removal_step (l, sel, si) r = (l, sel, si) := by
        simp [removal_step, hr]
      rw [List.foldl_cons, hstep, ih _ _ _ h]
      apply List.filter_congr
      intro x hx
      have hxr : x ≠ r := fun e => hr (e ▸ hx)
      simp [hxr]

theorem sdata_layer_overwrite (d : SData) (a b : String) :
    ({ { d with layer_name := a } with layer_name := b } : SData) =
      { d with layer_name := b } := rfl

/-- The conditional rename step only changes the strand it names. -/
theorem rename_step_ne (ar : Arena) (hd : Nat) (nm : String) (r : Nat) (h : r ≠ hd) :
    rename_step ar hd nm r = ar r := by
  rw [rename_step]
  by_cases he : (ar hd).layer_name = nm
  · simp [he]
  · simp [he, aset_at_ne _ _ _ _ h]

/-- At the renamed strand, the rename step stores the new name. -/
theorem rename_step_self (ar : Arena) (hd : Nat) (nm : String) :
    rename_step ar hd nm hd = { (ar hd) with layer_name := nm } := by
  rw [rename_step]
  by_cases he : (ar hd).layer_name = nm
  · rw [if_pos he, ← he]
  · rw [if_neg he, aset_at]

/-- `update_layer_names_for_set` leaves ids outside its list untouched. -/
theorem ulnfs_go_not_mem (N : Int) (l : List Nat) :
    ∀ (ar : Arena) (cnt : Nat) (q : Nat), q ∉ l → ulnfs_go N ar cnt l q = ar q := by
  induction l with
  | nil => intro ar cnt q _; rfl
  | cons hd tl ih =>
    intro ar cnt q hq
    have hqhd : q ≠ hd := fun e => hq (e ▸ List.mem_cons_self hd tl)
    have hqtl : q ∉ tl := fun e => hq (List.mem_cons_of_mem hd e)
    by_cases hm : SetNum.eqInt (ar hd).set_number N = true
    · simp only [ulnfs_go, hm, if_true]
      rw [ih _ _ _ hqtl, rename_step_ne _ _ _ _ hqhd]
    · simp only [ulnfs_go, hm]
      rw [if_neg (by simp [hm]), ih _ _ _ hqtl]

/-- Every arena cell after `update_layer_names_for_set` is the original
record with at most the `layer_name` replaced. -/
theorem ulnfs_go_shape (N : Int) (l : List Nat) :
    ∀ (ar : Arena) (cnt : Nat) (q : Nat),
      ulnfs_go N ar cnt l q = ar q ∨
        ∃ nm, ulnfs_go N ar cnt l q = { (ar q) with layer_name := nm } := by
  induction l with
  | nil => intro ar cnt q; exact Or.inl rfl
  | cons hd tl ih =>
    intro ar cnt q
    by_cases hm : SetNum.eqInt (ar hd).set_number N = true
    · simp only [ulnfs_go, hm, if_true]
      have hstep : rename_step ar hd (toString N ++ "_" ++ toString cnt) q = ar q ∨
          rename_step ar hd (toString N ++ "_" ++ toString cnt) q =
            { (ar q) with layer_name := toString N ++ "_" ++ toString cnt } := by
        by_cases hq : q = hd
        · subst hq; exact Or.inr (rename_step_self _ _ _)
        · exact Or.inl (rename_step_ne _ _ _ _ hq)
      rcases ih (rename_step ar hd (toString N ++ "_" ++ toString cnt)) (cnt + 1) q with
        h | ⟨nm, hnm⟩
      · rcases hstep with h2 | h2
        · exact Or.inl (h.trans h2)
        · exact Or.inr ⟨_, h.trans h2⟩
      · rcases hstep with h2 | h2
        · exact Or.inr ⟨nm, by rw [hnm, h2]⟩
        · exact Or.inr ⟨nm, by rw [hnm, h2, sdata_layer_overwrite]⟩
    · simp only [ulnfs_go, hm]
      rw [if_neg (by simp [hm])]
      exact ih ar cnt q

theorem ulnfs_go_sn (N : Int) (l : List Nat) (ar : Arena) (cnt : Nat) (q : Nat) :
    (ulnfs_go N ar cnt l q).set_number = (ar q).set_number := by
  rcases ulnfs_go_shape N l ar cnt q with h | ⟨nm, h⟩ <;> simp [h]

/-- Strands whose set number does not match are untouched by the
per-set renaming. -/
theorem ulnfs_go_unmatched (N : Int) (l : List Nat) :
    ∀ (ar : Arena) (cnt : Nat) (q : Nat),
      SetNum.eqInt (ar q).set_number N = false → ulnfs_go N ar cnt l q = ar q := by
  induction l with
  | nil => intro ar cnt q _; rfl
  | cons hd tl ih =>
    intro ar cnt q hq
    by_cases hm : SetNum.eqInt (ar hd).set_number N = true
    · simp only [ulnfs_go, hm, if_true]
      have hqhd : q ≠ hd := by
        intro e; rw [e] at hq; rw [hq] at hm; exact Bool.false_ne_true hm
      have h1 : rename_step ar hd (toString N ++ "_" ++ toString cnt) q = ar q :=
        rename_step_ne _ _ _ _ hqhd
      have h2 : SetNum.eqInt
          ((rename_step ar hd (toString N ++ "_" ++ toString cnt)) q).set_number N = false := by
        rw [h1]; exact hq
      rw [ih _ (cnt + 1) q h2, h1]
    · simp only [ulnfs_go, hm]
      rw [if_neg (by simp [hm])]
      exact ih ar cnt q hq

/-- Per-set renaming gives the members of the set (in strand-list
order, position `j`) the dense names `N_(cnt+j)`. -/
theorem ulnfs_go_names (N : Int) (l : List Nat) :
    ∀ (ar : Arena) (cnt : Nat), l.Nodup → ∀ (j q : Nat),
      (l.filter (fun r => SetNum.eqInt (ar r).set_number N))[j]? = some q →
      (ulnfs_go N ar cnt l q).layer_name = toString N ++ "_" ++ toString (cnt + j) := by
  induction l with
  | nil => intro ar cnt _ j q h; simp at h
  | cons hd tl ih =>
    intro ar cnt hnd j q hget
    have hhdtl : hd ∉ tl := (List.nodup_cons.mp hnd).1
    have hndtl : tl.Nodup := (List.nodup_cons.mp hnd).2
    by_cases hm : SetNum.eqInt (ar hd).set_number N = true
    · simp only [ulnfs_go, hm, if_true]
      have hfilter : tl.filter (fun r => SetNum.eqInt
            ((rename_step ar hd (toString N ++ "_" ++ toString cnt)) r).set_number N)
          = tl.filter (fun r => SetNum.eqInt (ar r).set_number N) := by
        apply List.filter_congr
        intro x hx
        have hxhd : x ≠ hd := fun e => hhdtl (e ▸ hx)
        rw [rename_step_ne _ _ _ _ hxhd]
      simp only [List.filter_cons, hm, if_true] at hget
      rcases j with _ | j'
      · rw [List.getElem?_cons_zero, Option.some_inj] at hget
        subst hget
        rw [ulnfs_go_not_mem N tl _ (cnt + 1) hd hhdtl, rename_step_self, Nat.add_zero]
      · rw [List.getElem?_cons_succ] at hget
        have hstep := ih (rename_step ar hd (toString N ++ "_" ++ toString cnt))
            (cnt + 1) hndtl j' q (by rw [hfilter]; exact hget)
        rw [hstep, show cnt + 1 + j' = cnt + (j' + 1) from by omega]
    · simp only [ulnfs_go, hm]
      rw [if_neg (by simp [hm])]
      simp only [List.filter_cons, hm, if_false] at hget
      exact ih ar cnt hndtl j q hget

/-- Parent unlinking preserves every strand's set number. -/
theorem unlink_parent_sn (ar : Arena) (sl : List Nat) (i q : Nat) :
    ((unlink_parent ar sl i) q).set_number = (ar q).set_number := by
  rw [unlink_parent]
  by_cases hk : (ar i).kind = SKind.attached
  · rw [if_pos hk]
    cases hfp : find_parent_strand ar sl i with
    | none => rfl
    | some p =>
      simp only [unlink_at]
      by_cases hq : q = p
      · subst hq
        by_cases h1 : (ar i).start = (ar q).start
        · rw [if_pos h1, aset_at]
        · by_cases h2 : (ar i).start = (ar q).stop
          · rw [if_neg h1, if_pos h2, aset_at]
          · rw [if_neg h1, if_neg h2, aset_at]
      · by_cases h1 : (ar i).start = (ar p).start
        · rw [if_pos h1, aset_at_ne _ _ _ _ hq]
        · by_cases h2 : (ar i).start = (ar p).stop
          · rw [if_neg h1, if_pos h2, aset_at_ne _ _ _ _ hq]
          · rw [if_neg h1, if_neg h2, aset_at_ne _ _ _ _ hq]
  · rw [if_neg hk]

/-- Parent unlinking touches no strand other than the found parent. -/
theorem unlink_parent_frame (ar : Arena) (sl : List Nat) (i q : Nat)
    (h : ∀ p, find_parent_strand ar sl i = some p → q ≠ p) :
    unlink_parent ar sl i q = ar q := by
  rw [unlink_parent]
  by_cases hk : (ar i).kind = SKind.attached
  · rw [if_pos hk]
    cases hfp : find_parent_strand ar sl i with
    | none => rfl
    | some p =>
      simp only [unlink_at]
      have hq := h p hfp
      by_cases h1 : (ar i).start = (ar p).start
      · rw [if_pos h1, aset_at_ne _ _ _ _ hq]
      · by_cases h2 : (ar i).start = (ar p).stop
        · rw [if_neg h1, if_pos h2, aset_at_ne _ _ _ _ hq]
        · rw [if_neg h1, if_neg h2, aset_at_ne _ _ _ _ hq]
  · rw [if_neg hk]

/-- At the found parent of a removed AttachedStrand, the strand is
erased from `attached_strands` and the matching circle flag cleared. -/
theorem unlink_parent_at (ar : Arena) (sl : List Nat) (i p : Nat)
    (hk : (ar i).kind = SKind.attached)
    (hf : find_parent_strand ar sl i = some p) :
    ((unlink_parent ar sl i) p).attached_strands = (ar p).attached_strands.erase i ∧
      ((ar i).start = (ar p).start → ((unlink_parent ar sl i) p).has_circles.1 = false) ∧
      ((ar i).start ≠ (ar p).start → (ar i).start = (ar p).stop →
        ((unlink_parent ar sl i) p).has_circles.2 = false) := by
  rw [unlink_parent, if_pos hk, hf]
  simp only [unlink_at]
  by_cases h1 : (ar i).start = (ar p).start
  · rw [if_pos h1]
    refine ⟨by rw [aset_at], fun _ => by rw [aset_at], fun hn _ => absurd h1 hn⟩
  · by_cases h2 : (ar i).start = (ar p).stop
    · rw [if_neg h1, if_pos h2]
      refine ⟨by rw [aset_at], fun he => absurd he h1, fun _ _ => by rw [aset_at]⟩
    · rw [if_neg h1, if_neg h2]
      refine ⟨by rw [aset_at], fun he => absurd he h1, fun _ he => absurd he h2⟩

/-- After a non-main removal leaving sublist `ST` of the strand list,
strands of other sets are untouched by the unlink and rename phases. -/
theorem nonmain_tail_frame (c : Canvas) (i : Nat) (N : Int) (ST : List Nat)
    (hsub : ∀ p ∈ ST, p ∈ c.strands)
    (hparentN : ∀ q ∈ c.strands, i ∈ (c.arena q).attached_strands →
        (c.arena q).set_number = SetNum.int N)
    (q : Nat) (hq : (c.arena q).set_number ≠ SetNum.int N) :
    ulnfs_go N (unlink_parent c.arena ST i) 1 ST q = c.arena q := by
  have hfr : unlink_parent c.arena ST i q = c.arena q := by
    apply unlink_parent_frame
    intro p hp hqp
    have hmemp : p ∈ ST := List.mem_of_find?_eq_some hp
    have hcont := List.find?_some hp
    have hpN : (c.arena p).set_number = SetNum.int N :=
      hparentN p (hsub p hmemp) (by simpa using hcont)
    exact hq (hqp ▸ hpN)
  have hsnq : SetNum.eqInt ((unlink_parent c.arena ST i) q).set_number N = false := by
    rw [unlink_parent_sn]
    cases hqq : SetNum.eqInt (c.arena q).set_number N with
    | false => rfl
    | true => exact absurd ((SetNum.eqInt_true_iff _ _).mp hqq) hq
  rw [ulnfs_go_unmatched N ST _ 1 q hsnq, hfr]

/-- After a non-main removal leaving sublist `ST`, the members of set N
get the dense layer names `N_1, N_2, ...` in `ST` order. -/
theorem nonmain_tail_names (c : Canvas) (i : Nat) (N : Int) (ST : List Nat)
    (hnd : ST.Nodup) (j q : Nat)
    (hget : (ST.filter (fun r => SetNum.eqInt (c.arena r).set_number N))[j]? = some q) :
    (ulnfs_go N (unlink_parent c.arena ST i) 1 ST q).layer_name
      = toString N ++ "_" ++ toString (1 + j) := by
  have hfe : ST.filter (fun r => SetNum.eqInt ((unlink_parent c.arena ST i) r).set_number N)
      = ST.filter (fun r => SetNum.eqInt (c.arena r).set_number N) := by
    apply List.filter_congr
    intro x _
    rw [unlink_parent_sn]
  exact ulnfs_go_names N ST _ 1 hnd j q (by rw [hfe]; exact hget)

/-- C5: removing a non-main strand (layer suffix ≠ 1) removes exactly
that strand plus the masked strands directly referencing it, leaves the
color mapping untouched, leaves every strand whose set number differs
from N completely unchanged (assuming, as in every reachable state,
that any strand holding the removed strand in `attached_strands`
belongs to set N), and renumbers set N's remaining members to the dense
suffixes 1..n in their original relative order. -/
theorem claim_C5_nonmain_removal_is_local
    (c : Canvas) (i : Nat) (N k : Int)
    (hmem : i ∈ c.strands) (hnodup : c.strands.Nodup)
    (hparse : parse_layer ((c.arena i).layer_name) = some (N, k)) (hk : k ≠ 1)
    (hparentN : ∀ q ∈ c.strands, i ∈ (c.arena q).attached_strands →
        (c.arena q).set_number = SetNum.int N) :
    ∃ c', remove_strand c i = some c' ∧
      c'.strands = c.strands.filter (fun s => !(removed_by_nonmain c.arena i s)) ∧
      c'.strand_colors = c.strand_colors ∧
      (∀ q, (c.arena q).set_number ≠ SetNum.int N → c'.arena q = c.arena q) ∧
      (∀ (j q : Nat),
        (c'.strands.filter (fun r => SetNum.eqInt (c.arena r).set_number N))[j]? = some q →
        (c'.arena q).layer_name = toString N ++ "_" ++ toString (j + 1)) := by
  have hkbeq : (k == 1) = false := by simp [hk]
  rw [remove_strand, if_pos hmem, hparse]
  simp only [remove_strand_parsed]
  rw [hkbeq]
  simp only [Bool.false_eq_true, if_false]
  rw [collect_nonmain_eq]
  simp only [remove_collected]
  refine ⟨_, rfl, ?_, ?_, ?_, ?_⟩
  · simp only [update_layer_names_for_set]
    rw [foldl_removal_strands _ _ _ _ hnodup]
    apply List.filter_congr
    intro s hs
    have hiff : (s ∈ c.strands.filter (fun s => decide (s = i)) ++
        c.strands.filter (fun s => decide (¬s = i ∧ ((c.arena s).kind = SKind.masked ∧
          ((c.arena s).first_selected = some i ∨ (c.arena s).second_selected = some i))))) ↔
        (s = i ∨ ((c.arena s).kind = SKind.masked ∧
          ((c.arena s).first_selected = some i ∨ (c.arena s).second_selected = some i))) := by
      simp only [List.mem_append, List.mem_filter, decide_eq_true_eq, hs, true_and]
      tauto
    rw [removed_by_nonmain, ← decide_not, decide_eq_decide]
    exact not_congr hiff
  · rfl
  · intro q hq
    simp only [update_layer_names_for_set]
    refine nonmain_tail_frame c i N _ ?_ hparentN q hq
    rw [foldl_removal_strands _ _ _ _ hnodup]
    intro p hp
    exact (List.mem_filter.mp hp).1
  · intro j q hget
    simp only [update_layer_names_for_set] at hget ⊢
    rw [show j + 1 = 1 + j from Nat.add_comm j 1]
    refine nonmain_tail_names c i N _ ?_ j q ?_
    · rw [foldl_removal_strands _ _ _ _ hnodup]
      exact hnodup.filter _
    · exact hget

/-- C5 witness: concrete instance, removing `"3_2"` (id 2) from
`canvasC5w`. -/
theorem claim_C5_nonmain_removal_is_local_witness :
    ∃ c', remove_strand canvasC5w 2 = some c' ∧
      c'.strands = canvasC5w.strands.filter
        (fun s => !(removed_by_nonmain canvasC5w.arena 2 s)) ∧
      c'.strand_colors = canvasC5w.strand_colors ∧
      (∀ q, (canvasC5w.arena q).set_number ≠ SetNum.int 3 →
        c'.arena q = canvasC5w.arena q) ∧
      (∀ (j q : Nat),
        (c'.strands.filter
          (fun r => SetNum.eqInt (canvasC5w.arena r).set_number 3))[j]? = some q →
        (c'.arena q).layer_name = toString (3 : Int) ++ "_" ++ toString (j + 1)) :=
  claim_C5_nonmain_removal_is_local canvasC5w 2 3 2 (by decide) (by decide) (by rfl)
    (by decide) (by decide)

/-- The removal loop of a non-main deletion shrinks the strand list to
exactly the strands not removed. -/
theorem removal_list_eq (c : Canvas) (i : Nat) (hnodup : c.strands.Nodup) :
    ((c.strands.filter (fun s => decide (s = i)) ++
      c.strands.filter (fun s => decide (¬s = i ∧ ((c.arena s).kind = SKind.masked ∧
        ((c.arena s).first_selected = some i ∨
          (c.arena s).second_selected = some i))))).foldl
        removal_step (c.strands, c.selected_strand, c.selected_strand_index)).1
      = c.strands.filter (fun s => !(removed_by_nonmain c.arena i s)) := by
  rw [foldl_removal_strands _ _ _ _ hnodup]
  apply List.filter_congr
  intro s hs
  have hiff : (s ∈ c.strands.filter (fun s => decide (s = i)) ++
      c.strands.filter (fun s => decide (¬s = i ∧ ((c.arena s).kind = SKind.masked ∧
        ((c.arena s).first_selected = some i ∨ (c.arena s).second_selected = some i))))) ↔
      (s = i ∨ ((c.arena s).kind = SKind.masked ∧
        ((c.arena s).first_selected = some i ∨ (c.arena s).second_selected = some i))) := by
    simp only [List.mem_append, List.mem_filter, decide_eq_true_eq, hs, true_and]
    tauto
  rw [removed_by_nonmain, ← decide_not, decide_eq_decide]
  exact not_congr hiff

/-- C9 (amended): for an AttachedStrand `a` that is not the main strand
of its set, held exactly once in `p.attached_strands`, where `p` is the
first strand of the post-removal list whose `attached_strands` contains
`a`: after `remove_strand(a)`, `a` no longer appears in
`p.attached_strands` and the has_circles flag matching `a`'s start
point on `p` is cleared (index 0 when `a.start == p.start`, else index
1 when `a.start == p.end`). -/
theorem claim_C9_attached_unlink_amended
    (c : Canvas) (i p : Nat) (N k : Int)
    (hmem : i ∈ c.strands) (hnodup : c.strands.Nodup)
    (hkind : (c.arena i).kind = SKind.attached)
    (hparse : parse_layer ((c.arena i).layer_name) = some (N, k)) (hk : k ≠ 1)
    (honce : (c.arena p).attached_strands.count i = 1)
    (hfind : find_parent_strand c.arena
        (c.strands.filter (fun s => !(removed_by_nonmain c.arena i s))) i = some p) :
    ∃ c', remove_strand c i = some c' ∧
      i ∉ (c'.arena p).attached_strands ∧
      ((c.arena i).start = (c.arena p).start → (c'.arena p).has_circles.1 = false) ∧
      ((c.arena i).start ≠ (c.arena p).start → (c.arena i).start = (c.arena p).stop →
        (c'.arena p).has_circles.2 = false) := by
  have hkbeq : (k == 1) = false := by simp [hk]
  rw [remove_strand, if_pos hmem, hparse]
  simp only [remove_strand_parsed]
  rw [hkbeq]
  simp only [Bool.false_eq_true, if_false]
  rw [collect_nonmain_eq]
  simp only [remove_collected, update_layer_names_for_set]
  rw [removal_list_eq c i hnodup]
  set ST := c.strands.filter (fun s => !(removed_by_nonmain c.arena i s)) with hSTdef
  obtain ⟨hatt, hc1, hc2⟩ := unlink_parent_at c.arena ST i p hkind hfind
  rcases ulnfs_go_shape N ST (unlink_parent c.arena ST i) 1 p with hsh | ⟨nm, hsh⟩
  · refine ⟨_, rfl, ?_, ?_, ?_⟩
    · dsimp only
      rw [hsh, hatt, ← List.count_eq_zero, List.count_erase_self, honce]
    · intro hse
      dsimp only
      rw [hsh]
      exact hc1 hse
    · intro hne hse
      dsimp only
      rw [hsh]
      exact hc2 hne hse
  · refine ⟨_, rfl, ?_, ?_, ?_⟩
    · dsimp only
      rw [hsh]
      have heq : ({ (unlink_parent c.arena ST i) p with layer_name := nm }).attached_strands
          = ((unlink_parent c.arena ST i) p).attached_strands := rfl
      rw [heq, hatt, ← List.count_eq_zero, List.count_erase_self, honce]
    · intro hse
      dsimp only
      rw [hsh]
      exact hc1 hse
    · intro hne hse
      dsimp only
      rw [hsh]
      exact hc2 hne hse

/-- C9 witness: concrete instance on `canvasC9w`, removing the
non-main AttachedStrand id 1. -/
theorem claim_C9_attached_unlink_amended_witness :
    ∃ c', remove_strand canvasC9w 1 = some c' ∧
      1 ∉ (c'.arena 0).attached_strands ∧
      ((canvasC9w.arena 1).start = (canvasC9w.arena 0).start →
        (c'.arena 0).has_circles.1 = false) ∧
      ((canvasC9w.arena 1).start ≠ (canvasC9w.arena 0).start →
        (canvasC9w.arena 1).start = (canvasC9w.arena 0).stop →
        (c'.arena 0).has_circles.2 = false) :=
  claim_C9_attached_unlink_amended canvasC9w 1 0 1 2 (by decide) (by decide) (by decide)
    (by rfl) (by decide) (by decide) (by rfl)

/-- `select_strand` never modifies the arena (it only changes selection
bookkeeping). -/
theorem select_strand_arena (c : Canvas) (idx : Int) :
    (select_strand c idx).arena = c.arena := by
  rw [select_strand]
  by_cases h : 0 ≤ idx ∧ idx < (c.strands.length : Int)
  · rw [if_pos h]
  · rw [if_neg h]

/-- `select_strand` on the last index of a list ending in `i` selects
`i`. -/
theorem select_last_of_append (c2 : Canvas) (l : List Nat) (i : Nat)
    (h : c2.strands = l ++ [i]) :
    (select_strand c2 ((c2.strands.length : Int) - 1)).selected_strand = some i := by
  rw [select_strand]
  have hlen : c2.strands.length = l.length + 1 := by rw [h]; simp
  have hin : 0 ≤ (c2.strands.length : Int) - 1 ∧
      (c2.strands.length : Int) - 1 < (c2.strands.length : Int) := by
    constructor <;> omega
  rw [if_pos hin]
  have htn : ((c2.strands.length : Int) - 1).toNat = l.length := by omega
  simp only [htn, h]
  rw [List.getD_eq_getElem?_getD]
  simp

/-- C7 (amended): for a strand not flagged mid-deletion, whose computed
set number is an int `m` (per lines 200-205: an AttachedStrand inherits
its parent's set number; else a selected strand's set number; else
`max(strand_colors.keys(), default=0) + 1` — the maximum over the
color-dict keys, 1 when the dict is empty, not over the set numbers of
existing strands): `on_strand_created` stores that set number on the
strand, and when the strand is not an AttachedStrand it becomes the
current selection. -/
theorem claim_C7_set_assignment_amended
    (c : Canvas) (i : Nat) (m : Int)
    (hflag : ¬((c.arena i).is_being_deleted = some true))
    (hexp : assigned_set_number c i = some (SetNum.int m)) :
    ∃ c', on_strand_created c i = some c' ∧
      (c'.arena i).set_number = SetNum.int m ∧
      ((c.arena i).kind ≠ SKind.attached → c'.selected_strand = some i) := by
  rw [on_strand_created, if_neg hflag, hexp]
  simp only [on_strand_created_assigned]
  by_cases hp : c.layer_panel
  · rw [if_pos hp]
    simp only [osc_panel, osc_finish]
    by_cases hk : (c.arena i).kind ≠ SKind.attached
    · rw [if_pos hk]
      refine ⟨_, rfl, ?_, ?_⟩
      · rw [select_strand_arena]
        simp [aset]
      · intro _
        apply select_last_of_append _ c.strands i
        rfl
    · rw [if_neg hk]
      refine ⟨_, rfl, ?_, ?_⟩
      · simp [aset]
      · intro hcontr
        exact absurd hcontr hk
  · rw [if_neg hp]
    simp only [osc_finish]
    by_cases hk : (c.arena i).kind ≠ SKind.attached
    · rw [if_pos hk]
      refine ⟨_, rfl, ?_, ?_⟩
      · rw [select_strand_arena]
        simp [aset]
      · intro _
        apply select_last_of_append _ c.strands i
        rfl
    · rw [if_neg hk]
      refine ⟨_, rfl, ?_, ?_⟩
      · simp [aset]
      · intro hcontr
        exact absurd hcontr hk

/-- C7 witness: concrete instance on a canvas with one strand of set 1
selected — the new strand inherits set 1 and becomes selected. -/
theorem claim_C7_set_assignment_amended_witness :
    ¬((canvasC7w.arena 5).is_being_deleted = some true) ∧
      (∃ c', on_strand_created canvasC7w 5 = some c' ∧
        (c'.arena 5).set_number = SetNum.int 1 ∧
        ((canvasC7w.arena 5).kind ≠ SKind.attached → c'.selected_strand = some 5)) :=
  ⟨by decide, claim_C7_set_assignment_amended canvasC7w 5 1 (by decide) (by rfl)⟩

theorem indexOf_range (n k : Nat) (h : k < n) : (List.range n).indexOf k = k := by
  have h2 : k < (List.range n).length := by simpa using h
  have h1 := List.indexOf_getElem (List.nodup_range n) k h2
  simpa using h1

theorem indexOf_map_range (strands : List Nat) (l : List Nat) (n : Nat)
    (hn : strands.length = n) (hsub : ∀ a ∈ l, a ∈ strands) :
    (l.map (fun a => List.indexOf a strands)).map (fun v => List.indexOf v (List.range n))
      = l.map (fun a => List.indexOf a strands) := by
  rw [List.map_map]
  apply List.map_congr_left
  intro a ha
  show List.indexOf (List.indexOf a strands) (List.range n) = List.indexOf a strands
  exact indexOf_range n _ (hn ▸ List.indexOf_lt_length.mpr (hsub a ha))

theorem indexOf_opt_range (strands : List Nat) (o : Option Nat) (n : Nat)
    (hn : strands.length = n) (hsub : ∀ a ∈ o, a ∈ strands) :
    (o.map (fun a => List.indexOf a strands)).map (fun v => List.indexOf v (List.range n))
      = o.map (fun a => List.indexOf a strands) := by
  cases o with
  | none => rfl
  | some a =>
    simp only [Option.map_some']
    rw [indexOf_range n _ (hn ▸ List.indexOf_lt_length.mpr (hsub a rfl))]

/-- `import_from_data` rebuilds the strand list as the fresh ids
`j, j+1, ...` in record order. -/
theorem import_go_strands (data : List StrandRecord) :
    ∀ (acc : Canvas) (j : Nat),
      (import_go acc j data).strands = acc.strands ++ List.range' j data.length := by
  induction data with
  | nil => intro acc j; simp [import_go]
  | cons r rest ih =>
    intro acc j
    simp only [import_go]
    rw [ih]
    simp [add_strand, List.range'_succ, List.append_assoc]

theorem import_go_arena_lt (data : List StrandRecord) :
    ∀ (acc : Canvas) (j q : Nat), q < j →
      (import_go acc j data).arena q = acc.arena q := by
  induction data with
  | nil => intro acc j q _; rfl
  | cons r rest ih =>
    intro acc j q hq
    simp only [import_go]
    rw [ih _ _ _ (by omega)]
    simp only [add_strand]
    exact aset_at_ne _ _ _ _ (by omega)

theorem import_go_arena_at (data : List StrandRecord) :
    ∀ (acc : Canvas) (j t : Nat) (r : StrandRecord), data[t]? = some r →
      (import_go acc j data).arena (j + t) = from_dict r := by
  induction data with
  | nil => intro acc j t r h; simp at h
  | cons r0 rest ih =>
    intro acc j t r h
    simp only [import_go]
    rcases t with _ | t'
    · rw [List.getElem?_cons_zero, Option.some_inj] at h
      subst h
      simp only [Nat.add_zero]
      rw [import_go_arena_lt rest _ (j + 1) j (by omega)]
      simp only [add_strand]
      exact aset_at _ _ _
    · rw [List.getElem?_cons_succ] at h
      rw [show j + (t' + 1) = (j + 1) + t' from by omega]
      exact ih _ (j + 1) t' r h

/-- C3: round-trip.  Exporting a collection and importing the records
back yields a collection whose export — the full observable record view
of §6: every strand with its discriminator kind, geometry, width,
color, set number, layer name, circle flags, and its attachment /
parent / mask references as indices — is identical, so the collections
are observably equal strand for strand, in order, colors included
(hypothesis: every cross-reference points at a strand present in the
collection, spec invariants 3 and 4). -/
theorem claim_C3_export_import_roundtrip (c : Canvas)
    (hrefs : ∀ q ∈ c.strands,
      (∀ a ∈ (c.arena q).attached_strands, a ∈ c.strands) ∧
      (∀ pid ∈ (c.arena q).parent, pid ∈ c.strands) ∧
      (∀ a ∈ (c.arena q).first_selected, a ∈ c.strands) ∧
      (∀ a ∈ (c.arena q).second_selected, a ∈ c.strands)) :
    export_to_data (import_from_data c (export_to_data c)) = export_to_data c := by
  have hlen : (export_to_data c).length = c.strands.length := by
    simp [export_to_data]
  have hstr : (import_from_data c (export_to_data c)).strands =
      List.range (export_to_data c).length := by
    rw [import_from_data, import_go_strands]
    simp [clear_strands, List.range_eq_range']
  have har : ∀ (t : Nat) (r : StrandRecord), (export_to_data c)[t]? = some r →
      (import_from_data c (export_to_data c)).arena t = from_dict r := by
    intro t r h
    have h2 := import_go_arena_at (export_to_data c) (clear_strands c) 0 t r h
    rw [import_from_data]
    simpa using h2
  conv_lhs => rw [export_to_data]
  apply List.ext_getElem?
  intro k
  rw [List.getElem?_map, hstr]
  by_cases hk : k < (export_to_data c).length
  · rw [List.getElem?_range hk]
    have hk' : k < c.strands.length := hlen ▸ hk
    have hdk : (export_to_data c)[k]? = some (to_dict c (c.strands.get ⟨k, hk'⟩)) := by
      rw [export_to_data, List.getElem?_map, List.getElem?_eq_getElem hk']
      rfl
    have hqm : c.strands.get ⟨k, hk'⟩ ∈ c.strands := List.get_mem c.strands k hk'
    obtain ⟨hr1, hr2, hr3, hr4⟩ := hrefs _ hqm
    have harq : (import_from_data c (export_to_data c)).arena k =
        from_dict (to_dict c (c.strands.get ⟨k, hk'⟩)) := har k _ hdk
    rw [hdk, Option.map_some']
    congr 1
    rw [to_dict, to_dict, harq, hstr]
    simp only [from_dict]
    congr 1
    · exact indexOf_map_range c.strands _ _ hlen.symm hr1
    · exact indexOf_opt_range c.strands _ _ hlen.symm hr2
    · exact indexOf_opt_range c.strands _ _ hlen.symm hr3
    · exact indexOf_opt_range c.strands _ _ hlen.symm hr4
  · rw [List.getElem?_eq_none (by simpa using Nat.le_of_not_lt hk)]
    rw [List.getElem?_eq_none (Nat.le_of_not_lt hk)]
    rfl

/-- C3 witness: concrete round trip over a canvas holding all three
strand kinds with cross-references. -/
theorem claim_C3_export_import_roundtrip_witness :
    export_to_data (import_from_data canvasC3w (export_to_data canvasC3w)) =
      export_to_data canvasC3w :=
  claim_C3_export_import_roundtrip canvasC3w (by decide)

theorem recolored_from_aset (ar : Arena) (q col : Nat) :
    recolored_from ar (aset ar q (set_color_d (ar q) col)) col := by
  intro j
  by_cases hj : j = q
  · subst hj; rw [aset_at]; exact Or.inr rfl
  · rw [aset_at_ne _ _ _ _ hj]; exact Or.inl rfl

theorem recolored_from_trans (ar1 ar2 ar3 : Arena) (col : Nat)
    (h1 : recolored_from ar1 ar2 col) (h2 : recolored_from ar2 ar3 col) :
    recolored_from ar1 ar3 col := by
  intro j
  rcases h2 j with h | h <;> rcases h1 j with h' | h' <;> rw [h, h']
  · exact Or.inl rfl
  · exact Or.inr rfl
  · exact Or.inr rfl
  · exact Or.inr rfl

theorem recolored_from_attached (ar ar' : Arena) (col : Nat)
    (h : recolored_from ar ar' col) (x : Nat) :
    (ar' x).attached_strands = (ar x).attached_strands := by
  rcases h x with h' | h' <;> rw [h'] <;> rfl

theorem recolored_from_kind (ar ar' : Arena) (col : Nat)
    (h : recolored_from ar ar' col) (x : Nat) : (ar' x).kind = (ar x).kind := by
  rcases h x with h' | h' <;> rw [h'] <;> rfl

theorem recolored_from_sn (ar ar' : Arena) (col : Nat)
    (h : recolored_from ar ar' col) (x : Nat) :
    (ar' x).set_number = (ar x).set_number := by
  rcases h x with h' | h' <;> rw [h'] <;> rfl

/-- Reachability through `attached_strands` only depends on the
attachment lists. -/
theorem rtg_congr (ar ar' : Arena)
    (h : ∀ x, (ar' x).attached_strands = (ar x).attached_strands) (s j : Nat) :
    Relation.ReflTransGen (attached_edge ar') s j ↔
      Relation.ReflTransGen (attached_edge ar) s j := by
  constructor <;> intro hh
  · refine hh.mono ?_
    intro a b hab
    rw [attached_edge] at hab ⊢
    rwa [h a] at hab
  · refine hh.mono ?_
    intro a b hab
    rw [attached_edge] at hab ⊢
    rwa [← h a] at hab

theorem color_matches_congr (ar ar' : Arena) (N : Int)
    (hk : ∀ x, (ar' x).kind = (ar x).kind)
    (hs : ∀ x, (ar' x).set_number = (ar x).set_number) (q : Nat) :
    color_matches ar' N q ↔ color_matches ar N q := by
  rw [color_matches, color_matches, hk q, hs q]

theorem dlookup_dinsert_self (d : List (SetNum × Nat)) (k : SetNum) (v : Nat) :
    dlookupS (dinsertS d k v) k = some v := by
  induction d with
  | nil => simp [dinsertS, dlookupS, List.find?]
  | cons p rest ih =>
    rcases p with ⟨k', v'⟩
    by_cases h : k' == k
    · simp [dinsertS, h, dlookupS, List.find?]
    · simp only [dinsertS, h, if_false, Bool.false_eq_true]
      simp only [dlookupS, List.find?, h] at ih ⊢
      exact ih

theorem dinsert_idem (d : List (SetNum × Nat)) (k : SetNum) (v : Nat) :
    dinsertS (dinsertS d k v) k v = dinsertS d k v := by
  induction d with
  | nil => simp [dinsertS]
  | cons p rest ih =>
    rcases p with ⟨k', v'⟩
    by_cases h : k' == k
    · simp [dinsertS, h]
    · simp [dinsertS, h, ih]

/-- Success and pointwise characterization of the recursive
`update_attached_strands_color`: on an attachment graph whose edges
strictly decrease a rank bounded by the fuel, the recursion terminates,
every strand reachable from the work list along `attached_strands`
edges receives the color, and every other strand is untouched. -/
theorem uasc_spec (col : Nat) (rank : Nat → Nat) :
    ∀ (fuel : Nat) (ar : Arena) (ids : List Nat),
      (∀ a b, b ∈ (ar a).attached_strands → rank b < rank a) →
      (∀ a ∈ ids, rank a < fuel) →
      ∃ ar', update_attached_strands_color fuel ar ids col = some ar' ∧
        (∀ j, (∃ a ∈ ids, Relation.ReflTransGen (attached_edge ar) a j) →
          ar' j = set_color_d (ar j) col) ∧
        (∀ j, ¬(∃ a ∈ ids, Relation.ReflTransGen (attached_edge ar) a j) →
          ar' j = ar j) := by
  intro fuel
  induction fuel with
  | zero =>
    intro ar ids hrank hb
    cases ids with
    | nil =>
      refine ⟨ar, by simp [update_attached_strands_color], ?_, fun j _ => rfl⟩
      intro j hj
      rcases hj with ⟨a, ha, _⟩
      exact absurd ha (List.not_mem_nil a)
    | cons a rest =>
      exact absurd (hb a (List.mem_cons_self _ _)) (Nat.not_lt_zero _)
  | succ fuel ihf =>
    intro ar ids
    induction ids generalizing ar with
    | nil =>
      intro hrank hb
      refine ⟨ar, by simp [update_attached_strands_color], ?_, fun j _ => rfl⟩
      intro j hj
      rcases hj with ⟨a, ha, _⟩
      exact absurd ha (List.not_mem_nil a)
    | cons a rest ihl =>
      intro hrank hb
      have hrc1 : recolored_from ar (aset ar a (set_color_d (ar a) col)) col :=
        recolored_from_aset ar a col
      set ar1 := aset ar a (set_color_d (ar a) col) with har1
      have hatt1 : ∀ x, (ar1 x).attached_strands = (ar x).attached_strands :=
        recolored_from_attached _ _ _ hrc1
      have hrank1 : ∀ x y, y ∈ (ar1 x).attached_strands → rank y < rank x := by
        intro x y hy
        exact hrank x y (by rwa [hatt1 x] at hy)
      have hchild : ∀ b ∈ (ar1 a).attached_strands, rank b < fuel := by
        intro b hbmem
        rw [hatt1 a] at hbmem
        have h1 := hrank a b hbmem
        have h2 := hb a (List.mem_cons_self _ _)
        omega
      obtain ⟨ar2, heq2, hre2, hun2⟩ := ihf ar1 ((ar1 a).attached_strands) hrank1 hchild
      have hrc2 : recolored_from ar1 ar2 col := by
        intro j
        by_cases hj : ∃ b ∈ (ar1 a).attached_strands,
            Relation.ReflTransGen (attached_edge ar1) b j
        · exact Or.inr (hre2 j hj)
        · exact Or.inl (hun2 j hj)
      have hrc12 : recolored_from ar ar2 col := recolored_from_trans _ _ _ _ hrc1 hrc2
      have hatt2 : ∀ x, (ar2 x).attached_strands = (ar x).attached_strands :=
        recolored_from_attached _ _ _ hrc12
      have hrank2 : ∀ x y, y ∈ (ar2 x).attached_strands → rank y < rank x := by
        intro x y hy
        exact hrank x y (by rwa [hatt2 x] at hy)
      obtain ⟨ar3, heq3, hre3, hun3⟩ :=
        ihl ar2 hrank2 (fun b hbm => hb b (List.mem_cons_of_mem _ hbm))
      refine ⟨ar3, ?_, ?_, ?_⟩
      · rw [update_attached_strands_color, ← har1, heq2, Option.some_bind]
        exact heq3
      · intro j hj
        by_cases hrest : ∃ b ∈ rest, Relation.ReflTransGen (attached_edge ar) b j
        · -- recolored in the tail pass
          have hrest2 : ∃ b ∈ rest, Relation.ReflTransGen (attached_edge ar2) b j := by
            rcases hrest with ⟨b, hbm, hbr⟩
            exact ⟨b, hbm, (rtg_congr ar ar2 hatt2 b j).mpr hbr⟩
          rw [hre3 j hrest2]
          rcases hrc12 j with h | h <;> rw [h] <;> rfl
        · have hend : ar3 j = ar2 j := hun3 j (by
            intro hcon
            rcases hcon with ⟨b, hbm, hbr⟩
            exact hrest ⟨b, hbm, (rtg_congr ar ar2 hatt2 b j).mp hbr⟩)
          rcases hj with ⟨s, hsm, hsr⟩
          rcases List.mem_cons.mp hsm with hsa | hsrest
          · subst hsa
            rcases hsr.cases_head with hja | ⟨b, hab, hbr⟩
            · -- j is the head strand itself
              rw [hend, ← hja]
              rcases hrc2 s with h | h
              · rw [h, har1, aset_at]
              · rw [h, har1, aset_at]
                rfl
            · -- j is strictly below the head strand
              have hj2 : ∃ b ∈ (ar1 s).attached_strands,
                  Relation.ReflTransGen (attached_edge ar1) b j := by
                refine ⟨b, ?_, ?_⟩
                · rw [hatt1 s]; exact hab
                · exact (rtg_congr ar ar1 hatt1 b j).mpr hbr
              rw [hend, hre2 j hj2]
              by_cases hja : j = s
              · subst hja
                rw [har1, aset_at]
                rfl
              · rw [har1, aset_at_ne _ _ _ _ hja]
          · exact absurd ⟨s, hsrest, hsr⟩ hrest
      · intro j hj
        have hja : ¬(j = a ∨ ∃ b ∈ (ar a).attached_strands,
            Relation.ReflTransGen (attached_edge ar) b j) := by
          intro hcon
          apply hj
          rcases hcon with rfl | ⟨b, hbm, hbr⟩
          · exact ⟨j, List.mem_cons_self _ _, Relation.ReflTransGen.refl⟩
          · exact ⟨a, List.mem_cons_self _ _, Relation.ReflTransGen.head hbm hbr⟩
        have hjrest : ¬∃ b ∈ rest, Relation.ReflTransGen (attached_edge ar) b j := by
          intro hcon
          rcases hcon with ⟨b, hbm, hbr⟩
          exact hj ⟨b, List.mem_cons_of_mem _ hbm, hbr⟩
        have h3 : ar3 j = ar2 j := hun3 j (by
          intro hcon
          rcases hcon with ⟨b, hbm, hbr⟩
          exact hjrest ⟨b, hbm, (rtg_congr ar ar2 hatt2 b j).mp hbr⟩)
        have h2 : ar2 j = ar1 j := hun2 j (by
          intro hcon
          rcases hcon with ⟨b, hbm, hbr⟩
          rw [hatt1 a] at hbm
          exact hja (Or.inr ⟨b, hbm, (rtg_congr ar ar1 hatt1 b j).mp hbr⟩))
        have h1 : ar1 j = ar j := by
          rw [har1]
          exact aset_at_ne _ _ _ _ (fun hcon => hja (Or.inl hcon))
        rw [h3, h2, h1]

/-- Characterization of one matched step of the `update_color_for_set`
loop followed by the processed tail: the union of the head strand's
reachable set and the tail's recolored set is recolored, nothing else
changes. -/
theorem ucfs_matched_char (N : Int) (col : Nat) (q : Nat) (rest : List Nat)
    (ar ar2 ar3 : Arena)
    (hmatch : color_matches ar N q)
    (hrc02 : recolored_from ar ar2 col)
    (hre2 : ∀ j, (∃ b ∈ ((aset ar q (set_color_d (ar q) col)) q).attached_strands,
        Relation.ReflTransGen (attached_edge (aset ar q (set_color_d (ar q) col))) b j) →
      ar2 j = set_color_d ((aset ar q (set_color_d (ar q) col)) j) col)
    (hun2 : ∀ j, ¬(∃ b ∈ ((aset ar q (set_color_d (ar q) col)) q).attached_strands,
        Relation.ReflTransGen (attached_edge (aset ar q (set_color_d (ar q) col))) b j) →
      ar2 j = (aset ar q (set_color_d (ar q) col)) j)
    (hre3 : ∀ j, (∃ src ∈ rest, color_matches ar2 N src ∧
        Relation.ReflTransGen (attached_edge ar2) src j) →
      ar3 j = set_color_d (ar2 j) col)
    (hun3 : ∀ j, ¬(∃ src ∈ rest, color_matches ar2 N src ∧
        Relation.ReflTransGen (attached_edge ar2) src j) →
      ar3 j = ar2 j) :
    (∀ j, (∃ src ∈ q :: rest, color_matches ar N src ∧
        Relation.ReflTransGen (attached_edge ar) src j) →
      ar3 j = set_color_d (ar j) col) ∧
    (∀ j, ¬(∃ src ∈ q :: rest, color_matches ar N src ∧
        Relation.ReflTransGen (attached_edge ar) src j) →
      ar3 j = ar j) := by
  have hrc1 : recolored_from ar (aset ar q (set_color_d (ar q) col)) col :=
    recolored_from_aset ar q col
  have hatt1 := recolored_from_attached _ _ _ hrc1
  have hatt2 := recolored_from_attached _ _ _ hrc02
  have hkind2 := recolored_from_kind _ _ _ hrc02
  have hsn2 := recolored_from_sn _ _ _ hrc02
  constructor
  · intro j hj
    by_cases hrest : ∃ src ∈ rest, color_matches ar N src ∧
        Relation.ReflTransGen (attached_edge ar) src j
    · have hrest2 : ∃ src ∈ rest, color_matches ar2 N src ∧
          Relation.ReflTransGen (attached_edge ar2) src j := by
        rcases hrest with ⟨src, hsm, hmt, hrr⟩
        exact ⟨src, hsm, (color_matches_congr ar ar2 N hkind2 hsn2 src).mpr hmt,
          (rtg_congr ar ar2 hatt2 src j).mpr hrr⟩
      rw [hre3 j hrest2]
      rcases hrc02 j with h | h <;> rw [h] <;> rfl
    · have hend : ar3 j = ar2 j := hun3 j (by
        intro hcon
        rcases hcon with ⟨src, hsm, hmt, hrr⟩
        exact hrest ⟨src, hsm, (color_matches_congr ar ar2 N hkind2 hsn2 src).mp hmt,
          (rtg_congr ar ar2 hatt2 src j).mp hrr⟩)
      rcases hj with ⟨src, hsm, hmt, hsr⟩
      rcases List.mem_cons.mp hsm with hsq | hsrest
      · subst hsq
        rcases hsr.cases_head with hjq | ⟨b, hab, hbr⟩
        · rw [hend, ← hjq]
          have hq2 : ar2 src = set_color_d (ar src) col := by
            by_cases hex : ∃ b ∈ ((aset ar src (set_color_d (ar src) col)) src).attached_strands,
                Relation.ReflTransGen
                  (attached_edge (aset ar src (set_color_d (ar src) col))) b src
            · rw [hre2 src hex, aset_at]
              rfl
            · rw [hun2 src hex, aset_at]
          exact hq2
        · have hj2 : ∃ b ∈ ((aset ar src (set_color_d (ar src) col)) src).attached_strands,
              Relation.ReflTransGen
                (attached_edge (aset ar src (set_color_d (ar src) col))) b j := by
            refine ⟨b, ?_, ?_⟩
            · rw [hatt1 src]; exact hab
            · exact (rtg_congr ar _ hatt1 b j).mpr hbr
          rw [hend, hre2 j hj2]
          by_cases hjq : j = src
          · subst hjq
            rw [aset_at]
            rfl
          · rw [aset_at_ne _ _ _ _ hjq]
      · exact absurd ⟨src, hsrest, hmt, hsr⟩ hrest
  · intro j hj
    have hjq : j ≠ q := by
      intro hcon
      exact hj ⟨q, List.mem_cons_self _ _, hmatch, hcon ▸ Relation.ReflTransGen.refl⟩
    have h3 : ar3 j = ar2 j := hun3 j (by
      intro hcon
      rcases hcon with ⟨src, hsm, hmt, hrr⟩
      exact hj ⟨src, List.mem_cons_of_mem _ hsm,
        (color_matches_congr ar ar2 N hkind2 hsn2 src).mp hmt,
        (rtg_congr ar ar2 hatt2 src j).mp hrr⟩)
    have h2 : ar2 j = (aset ar q (set_color_d (ar q) col)) j := hun2 j (by
      intro hcon
      rcases hcon with ⟨b, hbm, hbr⟩
      rw [hatt1 q] at hbm
      exact hj ⟨q, List.mem_cons_self _ _, hmatch,
        Relation.ReflTransGen.head hbm ((rtg_congr ar _ hatt1 b j).mp hbr)⟩)
    rw [h3, h2, aset_at_ne _ _ _ _ hjq]

/-- Success and characterization of the strand loop of
`update_color_for_set` (lines 176-183). -/
theorem ucfs_go_spec (N : Int) (col : Nat) (rank : Nat → Nat) (fuel : Nat)
    (hfuel : ∀ a, rank a < fuel) :
    ∀ (l : List Nat) (ar : Arena),
      (∀ a b, b ∈ (ar a).attached_strands → rank b < rank a) →
      (∀ q ∈ l, (ar q).kind = SKind.masked → ∃ s, (ar q).set_number = SetNum.str s) →
      ∃ ar', ucfs_go N col fuel ar l = some ar' ∧
        (∀ j, (∃ src ∈ l, color_matches ar N src ∧
            Relation.ReflTransGen (attached_edge ar) src j) →
          ar' j = set_color_d (ar j) col) ∧
        (∀ j, ¬(∃ src ∈ l, color_matches ar N src ∧
            Relation.ReflTransGen (attached_edge ar) src j) →
          ar' j = ar j) := by
  intro l
  induction l with
  | nil =>
    intro ar hrank hm
    refine ⟨ar, by simp [ucfs_go], ?_, fun j _ => rfl⟩
    intro j hj
    rcases hj with ⟨s, hs, _⟩
    exact absurd hs (List.not_mem_nil s)
  | cons q rest ih =>
    intro ar hrank hm
    have hrc1 : recolored_from ar (aset ar q (set_color_d (ar q) col)) col :=
      recolored_from_aset ar q col
    have hatt1 := recolored_from_attached _ _ _ hrc1
    have hrank1 : ∀ x y, y ∈ ((aset ar q (set_color_d (ar q) col)) x).attached_strands →
        rank y < rank x := by
      intro x y hy
      exact hrank x y (by rwa [hatt1 x] at hy)
    by_cases hkind : (ar q).kind = SKind.masked
    · obtain ⟨s, hs⟩ := hm q (List.mem_cons_self _ _) hkind
      by_cases hsw : pyStartsWith s (toString N ++ "_") = true
      · -- matched masked strand
        have hmatch : color_matches ar N q := Or.inl ⟨hkind, s, hs, hsw⟩
        obtain ⟨ar2, heq2, hre2, hun2⟩ := uasc_spec col rank fuel
          (aset ar q (set_color_d (ar q) col))
          ((aset ar q (set_color_d (ar q) col)) q).attached_strands
          hrank1 (fun b _ => hfuel b)
        have hrc2 : recolored_from (aset ar q (set_color_d (ar q) col)) ar2 col := by
          intro j
          by_cases hx : ∃ b ∈ ((aset ar q (set_color_d (ar q) col)) q).attached_strands,
              Relation.ReflTransGen (attached_edge (aset ar q (set_color_d (ar q) col))) b j
          · exact Or.inr (hre2 j hx)
          · exact Or.inl (hun2 j hx)
        have hrc02 : recolored_from ar ar2 col := recolored_from_trans _ _ _ _ hrc1 hrc2
        have hatt2 := recolored_from_attached _ _ _ hrc02
        have hkind2 := recolored_from_kind _ _ _ hrc02
        have hsn2 := recolored_from_sn _ _ _ hrc02
        have hrank2 : ∀ x y, y ∈ (ar2 x).attached_strands → rank y < rank x := by
          intro x y hy
          exact hrank x y (by rwa [hatt2 x] at hy)
        have hm2 : ∀ x ∈ rest, (ar2 x).kind = SKind.masked →
            ∃ s', (ar2 x).set_number = SetNum.str s' := by
          intro x hx hkx
          rw [hkind2 x] at hkx
          obtain ⟨s', hs'⟩ := hm x (List.mem_cons_of_mem _ hx) hkx
          exact ⟨s', by rw [hsn2 x]; exact hs'⟩
        obtain ⟨ar3, heq3, hre3, hun3⟩ := ih ar2 hrank2 hm2
        obtain ⟨hchar1, hchar2⟩ :=
          ucfs_matched_char N col q rest ar ar2 ar3 hmatch hrc02 hre2 hun2 hre3 hun3
        refine ⟨ar3, ?_, hchar1, hchar2⟩
        simp only [ucfs_go, hkind, if_true, hs]
        rw [if_pos hsw, heq2, Option.some_bind]
        exact heq3
      · -- masked strand, composite name does not match
        have hnm : ¬ color_matches ar N q := by
          rintro (⟨_, s', hs', hsw'⟩ | ⟨hk, _⟩)
          · rw [hs] at hs'
            cases hs'
            exact hsw hsw'
          · exact hk hkind
        obtain ⟨ar', heq', hre', hun'⟩ := ih ar hrank
          (fun x hx => hm x (List.mem_cons_of_mem _ hx))
        refine ⟨ar', ?_, ?_, ?_⟩
        · simp only [ucfs_go, hkind, if_true, hs]
          rw [if_neg hsw]
          exact heq'
        · intro j hj
          apply hre'
          rcases hj with ⟨src, hsm, hmt, hsr⟩
          rcases List.mem_cons.mp hsm with hq | hsrest
          · exact absurd (hq ▸ hmt) hnm
          · exact ⟨src, hsrest, hmt, hsr⟩
        · intro j hj
          apply hun'
          intro hcon
          rcases hcon with ⟨src, hsrest, hmt, hsr⟩
          exact hj ⟨src, List.mem_cons_of_mem _ hsrest, hmt, hsr⟩
    · by_cases heqi : SetNum.eqInt (ar q).set_number N = true
      · -- matched plain/attached strand
        have hmatch : color_matches ar N q :=
          Or.inr ⟨hkind, (SetNum.eqInt_true_iff _ _).mp heqi⟩
        obtain ⟨ar2, heq2, hre2, hun2⟩ := uasc_spec col rank fuel
          (aset ar q (set_color_d (ar q) col))
          ((aset ar q (set_color_d (ar q) col)) q).attached_strands
          hrank1 (fun b _ => hfuel b)
        have hrc2 : recolored_from (aset ar q (set_color_d (ar q) col)) ar2 col := by
          intro j
          by_cases hx : ∃ b ∈ ((aset ar q (set_color_d (ar q) col)) q).attached_strands,
              Relation.ReflTransGen (attached_edge (aset ar q (set_color_d (ar q) col))) b j
          · exact Or.inr (hre2 j hx)
          · exact Or.inl (hun2 j hx)
        have hrc02 : recolored_from ar ar2 col := recolored_from_trans _ _ _ _ hrc1 hrc2
        have hatt2 := recolored_from_attached _ _ _ hrc02
        have hkind2 := recolored_from_kind _ _ _ hrc02
        have hsn2 := recolored_from_sn _ _ _ hrc02
        have hrank2 : ∀ x y, y ∈ (ar2 x).attached_strands → rank y < rank x := by
          intro x y hy
          exact hrank x y (by rwa [hatt2 x] at hy)
        have hm2 : ∀ x ∈ rest, (ar2 x).kind = SKind.masked →
            ∃ s', (ar2 x).set_number = SetNum.str s' := by
          intro x hx hkx
          rw [hkind2 x] at hkx
          obtain ⟨s', hs'⟩ := hm x (List.mem_cons_of_mem _ hx) hkx
          exact ⟨s', by rw [hsn2 x]; exact hs'⟩
        obtain ⟨ar3, heq3, hre3, hun3⟩ := ih ar2 hrank2 hm2
        obtain ⟨hchar1, hchar2⟩ :=
          ucfs_matched_char N col q rest ar ar2 ar3 hmatch hrc02 hre2 hun2 hre3 hun3
        refine ⟨ar3, ?_, hchar1, hchar2⟩
        simp only [ucfs_go, hkind, if_false]
        rw [if_pos heqi, heq2, Option.some_bind]
        exact heq3
      · -- plain/attached strand of another set
        have hnm : ¬ color_matches ar N q := by
          rintro (⟨hk, _⟩ | ⟨_, hsn⟩)
          · exact hkind hk
          · rw [hsn] at heqi
            simp [SetNum.eqInt] at heqi
        obtain ⟨ar', heq', hre', hun'⟩ := ih ar hrank
          (fun x hx => hm x (List.mem_cons_of_mem _ hx))
        refine ⟨ar', ?_, ?_, ?_⟩
        · simp only [ucfs_go, hkind, if_false]
          rw [if_neg (by simp [heqi])]
          exact heq'
        · intro j hj
          apply hre'
          rcases hj with ⟨src, hsm, hmt, hsr⟩
          rcases List.mem_cons.mp hsm with hq | hsrest
          · exact absurd (hq ▸ hmt) hnm
          · exact ⟨src, hsrest, hmt, hsr⟩
        · intro j hj
          apply hun'
          intro hcon
          rcases hcon with ⟨src, hsrest, hmt, hsr⟩
          exact hj ⟨src, List.mem_cons_of_mem _ hsrest, hmt, hsr⟩

/-- C8: `update_color_for_set(N, color)` stores the color under key N
and recolors exactly the strands that match set N (set-number equality
for plain/attached strands, composite-string prefix `"N_"` for masked
strands) together with every strand transitively reachable from a
matching strand through `attached_strands`, at any depth; all other
strands and state are untouched.  The recolored set is described by
reachability — independent of traversal order — and running the
operation a second time returns the same state (idempotence).
Hypotheses: the attachment graph is ranked (acyclic) with ranks below
the fuel, and masked strands carry composite string set numbers (as
the code itself requires: line 178 calls `.startswith` on them). -/
theorem claim_C8_color_propagation
    (c : Canvas) (N : Int) (col : Nat) (fuel : Nat) (rank : Nat → Nat)
    (hrank : ∀ a b, b ∈ (c.arena a).attached_strands → rank b < rank a)
    (hfuel : ∀ a, rank a < fuel)
    (hmask : ∀ q ∈ c.strands, (c.arena q).kind = SKind.masked →
      ∃ s, (c.arena q).set_number = SetNum.str s) :
    ∃ c', update_color_for_set c N col fuel = some c' ∧
      dlookupS c'.strand_colors (SetNum.int N) = some col ∧
      (∀ j, color_reaches c N j → c'.arena j = set_color_d (c.arena j) col) ∧
      (∀ j, ¬color_reaches c N j → c'.arena j = c.arena j) ∧
      update_color_for_set c' N col fuel = some c' := by
  obtain ⟨ar', heq, hre, hun⟩ :=
    ucfs_go_spec N col rank fuel hfuel c.strands c.arena hrank hmask
  refine ⟨{ c with strand_colors := dinsertS c.strand_colors (.int N) col, arena := ar' },
    ?_, ?_, ?_, ?_, ?_⟩
  · simp only [update_color_for_set]
    rw [heq, Option.map_some']
  · dsimp only
    exact dlookup_dinsert_self _ _ _
  · intro j hj
    dsimp only
    exact hre j hj
  · intro j hj
    dsimp only
    exact hun j hj
  · have hrc : recolored_from c.arena ar' col := by
      intro j
      by_cases hj : ∃ src ∈ c.strands, color_matches c.arena N src ∧
          Relation.ReflTransGen (attached_edge c.arena) src j
      · exact Or.inr (hre j hj)
      · exact Or.inl (hun j hj)
    have hatt' := recolored_from_attached _ _ _ hrc
    have hkind' := recolored_from_kind _ _ _ hrc
    have hsn' := recolored_from_sn _ _ _ hrc
    have hrank' : ∀ a b, b ∈ (ar' a).attached_strands → rank b < rank a := by
      intro a b hb2
      exact hrank a b (by rwa [hatt' a] at hb2)
    have hmask' : ∀ q ∈ c.strands, (ar' q).kind = SKind.masked →
        ∃ s, (ar' q).set_number = SetNum.str s := by
      intro q hq hkq
      rw [hkind' q] at hkq
      obtain ⟨s, hs⟩ := hmask q hq hkq
      exact ⟨s, by rw [hsn' q]; exact hs⟩
    obtain ⟨ar'', heq'', hre'', hun''⟩ :=
      ucfs_go_spec N col rank fuel hfuel c.strands ar' hrank' hmask'
    have harr : ar'' = ar' := by
      funext j
      by_cases hj : ∃ src ∈ c.strands, color_matches c.arena N src ∧
          Relation.ReflTransGen (attached_edge c.arena) src j
      · have hj' : ∃ src ∈ c.strands, color_matches ar' N src ∧
            Relation.ReflTransGen (attached_edge ar') src j := by
          rcases hj with ⟨src, hsm, hmt, hsr⟩
          exact ⟨src, hsm, (color_matches_congr _ _ N hkind' hsn' src).mpr hmt,
            (rtg_congr _ _ hatt' src j).mpr hsr⟩
        rw [hre'' j hj', hre j hj]
        rfl
      · have hj' : ¬∃ src ∈ c.strands, color_matches ar' N src ∧
            Relation.ReflTransGen (attached_edge ar') src j := by
          intro hcon
          rcases hcon with ⟨src, hsm, hmt, hsr⟩
          exact hj ⟨src, hsm, (color_matches_congr _ _ N hkind' hsn' src).mp hmt,
            (rtg_congr _ _ hatt' src j).mp hsr⟩
        exact hun'' j hj'
    simp only [update_color_for_set]
    rw [heq'', Option.map_some', harr, dinsert_idem]

/-- The attachment graph of `arenaC8` is ranked by `4 - id`. -/
theorem arenaC8_ranked : ∀ a b, b ∈ (arenaC8 a).attached_strands → 4 - b < 4 - a := by
  intro a b hb
  by_cases h0 : a = 0
  · subst h0
    simp [arenaC8] at hb
    subst hb
    decide
  · by_cases h1 : a = 1
    · subst h1
      simp [arenaC8] at hb
      subst hb
      decide
    · have hempty : (arenaC8 a).attached_strands = [] := by
        rw [arenaC8]
        rw [if_neg h0, if_neg h1]
        split_ifs <;> rfl
      rw [hempty] at hb
      exact absurd hb (List.not_mem_nil b)

/-- C8 witness: concrete instance on `canvasC8w`, recoloring set 1 with
color 7, fuel 5, rank `4 - id`. -/
theorem claim_C8_color_propagation_witness :
    ∃ c', update_color_for_set canvasC8w 1 7 5 = some c' ∧
      dlookupS c'.strand_colors (SetNum.int 1) = some 7 ∧
      (∀ j, color_reaches canvasC8w 1 j → c'.arena j = set_color_d (canvasC8w.arena j) 7) ∧
      (∀ j, ¬color_reaches canvasC8w 1 j → c'.arena j = canvasC8w.arena j) ∧
      update_color_for_set c' 1 7 5 = some c' :=
  claim_C8_color_propagation canvasC8w 1 7 5 (fun j => 4 - j) arenaC8_ranked
    (fun a => by show 4 - a < 5; omega)
    (by
      intro q hq hk
      fin_cases hq
      · exact absurd hk (by decide)
      · exact absurd hk (by decide)
      · exact absurd hk (by decide)
      · exact absurd hk (by decide)
      · exact ⟨"1_1", by decide⟩)
